import Mathlib

/-!
Verification development for the piano fingering planner
(pattern recognizer + rule-based DP fingering optimizer).

The definitions below are a shallow embedding of the TypeScript source:
`PatternRecognizer` (feature extraction, windowed decision-tree
classification, segment post-processing) and `FingeringPlanner`
(difficulty profiles, hand-position anchors, scale-segment detection,
the (note, finger) dynamic program, chunked optimization and the
two-hand merge).

Conventions of the embedding:
* JS numbers that are always integers are `Int` or `Nat`; fractional
  quantities (durations, beats, confidences, costs) are `Rat`, which is
  exact where the source uses binary floating point.
* JS `%` on integers is truncated remainder, `Int.tmod`.
* JS `Array.prototype.slice(a, b)` is `listSlice a b`.
* The JS `Map` iterates in insertion order; folds over the concrete
  finger list `[1,2,3,4,5]` reproduce that order, since the source
  inserts fingers in that order.
* The only use the source makes of the floating-point Shannon entropy
  of a window is the comparison `pitchEntropy < 0.5`; that comparison
  is embedded exactly over the reals by the integer inequality
  T^(2T) < 2^T * prod c_i^(2c_i)  (see `computeEntropyLtHalf`).
* Fields named `*Ratio` in the source are called `*Frac` here.
* The DP state drops the source's explanation strings and `path`
  diagnostics: no control flow depends on them.
-/

set_option maxHeartbeats 4000000
set_option maxRecDepth 10000

namespace PianoFingering

/-- JS `Array.prototype.slice(a, b)` (with `0 ≤ a ≤ b`). -/
def listSlice (xs : List α) (a b : Nat) : List α :=
  (xs.drop a).take (b - a)

/-- Deduplicate keeping first occurrences (JS `Set` insertion order). -/
def dedupFirstGo [DecidableEq α] (seen : List α) : List α → List α
  | [] => []
  | x :: xs =>
    if seen.contains x then dedupFirstGo seen xs
    else x :: dedupFirstGo (x :: seen) xs

def dedupFirst [DecidableEq α] (l : List α) : List α := dedupFirstGo [] l

/-- `Math.sign` on integers. -/
def intSign (x : Int) : Int :=
  if 0 < x then 1 else if x < 0 then -1 else 0

/-- `Math.round` on exact rationals (round half toward positive infinity,
as JS does). -/
def jsRound (q : Rat) : Int := (q + 1/2).floor

/-- Hands. -/
inductive Hand where
  | RH
  | LH
deriving DecidableEq, Repr

/-- The 11 pattern types (`PrimaryPatternType | SpecialPatternType`). -/
inductive PatternType where
  | SCALE
  | ARPEGGIO
  | REPEATED
  | LEAP
  | CHORDAL
  | MELODIC
  | UNKNOWN
  | ALBERTI
  | ORNAMENTED
  | OSTINATO
  | POLYPHONIC
deriving DecidableEq, Repr

inductive Direction where
  | ascending
  | descending
  | bidirectional
  | mixed
deriving DecidableEq, Repr

inductive ScaleKind where
  | major
  | minor
  | chromatic
  | pentatonic
  | modal
deriving DecidableEq, Repr

inductive ChordKind where
  | major
  | minor
  | diminished
  | augmented
  | dominant7
  | major7
  | complex
deriving DecidableEq, Repr

inductive RepeatKind where
  | single
  | alternating
  | patternRep
deriving DecidableEq, Repr

inductive OrnamentKind where
  | trill
  | mordent
  | turn
  | grace
deriving DecidableEq, Repr

inductive ContourKind where
  | jagged
  | arch
  | valley
  | linear
deriving DecidableEq, Repr

inductive MelodicStyle where
  | cantabile
  | lyrical
  | expressive
  | neutral
deriving DecidableEq, Repr

/-- The fields of the source's `Note` record that the two core stages
read.  (Identity, notation and rendering fields are never consulted by
the recognizer or the planner.) -/
structure Note where
  pitch : Int
  duration : Rat
  voice : Nat
  staff : Nat
  hand : Hand
  measureNumber : Nat
  beat : Rat
  isGrace : Bool
  hasSlur : Bool
  hasTrill : Bool
  hasMordent : Bool
  hasTurn : Bool
deriving DecidableEq, Repr

def defaultNote : Note :=
  { pitch := 0, duration := 0, voice := 1, staff := 1, hand := Hand.RH
    measureNumber := 0, beat := 0, isGrace := false, hasSlur := false
    hasTrill := false, hasMordent := false, hasTurn := false }

/-- `PatternFeatures`: optional tagged attributes attached to a segment. -/
structure PatternFeatures where
  direction : Option Direction := none
  scaleType : Option ScaleKind := none
  chordType : Option ChordKind := none
  chordRoot : Option Int := none
  inversion : Option Nat := none
  repeatCount : Option Nat := none
  repeatType : Option RepeatKind := none
  ornamentType : Option OrnamentKind := none
  intervalPattern : Option (List Int) := none
  contour : Option ContourKind := none
  style : Option MelodicStyle := none
deriving DecidableEq, Repr

def emptyFeatures : PatternFeatures := {}

structure PatternSegment where
  startIndex : Nat
  endIndex : Nat
  patternType : PatternType
  confidence : Rat
  features : PatternFeatures
deriving DecidableEq, Repr

structure ClassificationResult where
  type : PatternType
  confidence : Rat
  features : PatternFeatures
deriving DecidableEq, Repr

/-! ## Recognizer helpers -/

/-- `computeIntervals`. -/
def computeIntervals : List Int → List Int
  | [] => []
  | [_] => []
  | a :: b :: rest => (b - a) :: computeIntervals (b :: rest)

/-- Exact embedding of the comparison `computeEntropy values < 0.5`.
With `T` the number of values and `c_i` the multiplicities,
`H = log2 (T^T / prod c_i^c_i) / T`, so `H < 1/2` iff
`T^(2T) < 2^T * prod c_i^(2c_i)`.  (Entropy of the empty list is 0.) -/
def computeEntropyLtHalf (values : List Int) : Bool :=
  let T := values.length
  if T = 0 then true
  else
    let counts := (dedupFirst values).map (fun v => values.count v)
    decide (T ^ (2 * T) < 2 ^ T * counts.foldl (fun a c => a * c ^ (2 * c)) 1)

/-- `computeVariance` (population variance, 0 on the empty list). -/
def computeVariance (values : List Rat) : Rat :=
  if values.length = 0 then 0
  else
    let mean := values.foldl (· + ·) 0 / (values.length : Rat)
    (values.map (fun v => (v - mean) * (v - mean))).foldl (· + ·) 0 /
      (values.length : Rat)

/-- `countDirectionChanges`. -/
def countDirectionChanges (intervals : List Int) : Nat :=
  ((intervals.zip intervals.tail).countP
    (fun p => intSign p.2 ≠ intSign p.1 && p.2 ≠ 0 && p.1 ≠ 0))

/-- `computeSimultaneity`: counts of notes per rounded beat position, in
first-occurrence order of the rounded key. -/
def computeSimultaneity (notes : List Note) : List Nat :=
  let keys := notes.map (fun n => (jsRound (n.beat * 100) : Rat) / 100)
  (dedupFirst keys).map (fun k => keys.count k)

def intListMax (l : List Int) (d : Int) : Int := l.foldl max d

def natListMax (l : List Nat) (d : Nat) : Nat := l.foldl max d

def ratSum (l : List Rat) : Rat := l.foldl (· + ·) 0

/-- `ExtractedFeatures` (the `*Ratio` fields are called `*Frac`;
`pitchEntropy` is represented by its only observation, the comparison
with 1/2 — see `computeEntropyLtHalf`). -/
structure ExtractedFeatures where
  pitches : List Int
  intervals : List Int
  pitchRange : Int
  pitchEntropyLtHalf : Bool
  ascendingFrac : Rat
  descendingFrac : Rat
  maxInterval : Nat
  avgInterval : Rat
  intervalVariance : Rat
  stepwiseFrac : Rat
  leapFrac : Rat
  directionChanges : Nat
  simultaneity : List Nat
  avgSimultaneity : Rat
  maxSimultaneity : Nat
  durationVariance : Rat
  avgDuration : Rat
  hasSlur : Bool
  hasOrnament : Bool
  hasGrace : Bool
  staff : Nat
deriving Repr

/-- `extractFeatures`. -/
def extractFeatures (notes : List Note) : ExtractedFeatures :=
  let pitches := notes.map (·.pitch)
  let intervals := computeIntervals pitches
  let ascendingCount := intervals.countP (fun i => 0 < i)
  let descendingCount := intervals.countP (fun i => i < 0)
  let totalIntervals : Nat := if intervals.length = 0 then 1 else intervals.length
  let absIntervals := intervals.map Int.natAbs
  let maxInterval := natListMax absIntervals 0
  let avgInterval : Rat :=
    if absIntervals.length = 0 then 0
    else ((absIntervals.foldl (· + ·) 0 : Nat) : Rat) / (absIntervals.length : Rat)
  let intervalVariance := computeVariance (absIntervals.map (fun a => (a : Rat)))
  let stepwiseCount := absIntervals.countP (fun i => i ≤ 2)
  let stepwiseFrac : Rat :=
    if absIntervals.length = 0 then 0
    else (stepwiseCount : Rat) / (absIntervals.length : Rat)
  let leapCount := absIntervals.countP (fun i => 4 < i)
  let leapFrac : Rat :=
    if absIntervals.length = 0 then 0
    else (leapCount : Rat) / (absIntervals.length : Rat)
  let simultaneity := computeSimultaneity notes
  let durations := notes.map (·.duration)
  { pitches := pitches
    intervals := intervals
    pitchRange := intListMax pitches (pitches.headD 0) - (pitches.foldl min (pitches.headD 0))
    pitchEntropyLtHalf := computeEntropyLtHalf pitches
    ascendingFrac := (ascendingCount : Rat) / (totalIntervals : Rat)
    descendingFrac := (descendingCount : Rat) / (totalIntervals : Rat)
    maxInterval := maxInterval
    avgInterval := avgInterval
    intervalVariance := intervalVariance
    stepwiseFrac := stepwiseFrac
    leapFrac := leapFrac
    directionChanges := countDirectionChanges intervals
    simultaneity := simultaneity
    avgSimultaneity :=
      ((simultaneity.foldl (· + ·) 0 : Nat) : Rat) /
        ((if simultaneity.length = 0 then 1 else simultaneity.length : Nat) : Rat)
    maxSimultaneity := if 0 < simultaneity.length then natListMax simultaneity 0 else 1
    avgDuration := ratSum durations / (durations.length : Rat)
    durationVariance := computeVariance durations
    hasSlur := notes.any (·.hasSlur)
    hasOrnament := notes.any (fun n => n.hasTrill || n.hasMordent || n.hasTurn)
    hasGrace := notes.any (·.isGrace)
    staff := match notes.head? with
      | some n => if n.staff = 0 then 1 else n.staff
      | none => 1 }

/-- `isAlternatingPattern`. -/
def isAlternatingPattern (intervals : List Int) : Bool :=
  if intervals.length < 3 then false
  else (intervals.zip intervals.tail).all
    (fun p => !(2 < p.1.natAbs) && p.1 = -p.2)

/-- `detectOrnamented`. -/
def detectOrnamented (notes : List Note) (f : ExtractedFeatures) :
    Option ClassificationResult :=
  if f.hasOrnament || f.hasGrace then
    let ornamentType :=
      if notes.any (·.hasTrill) then OrnamentKind.trill
      else if notes.any (·.hasMordent) then OrnamentKind.mordent
      else if notes.any (·.hasTurn) then OrnamentKind.turn
      else OrnamentKind.grace
    some ⟨PatternType.ORNAMENTED, 1,
      { emptyFeatures with ornamentType := some ornamentType }⟩
  else if f.avgDuration < 1/8 && f.maxInterval ≤ 2 then
    if isAlternatingPattern f.intervals then
      some ⟨PatternType.ORNAMENTED, 3/4,
        { emptyFeatures with ornamentType := some OrnamentKind.trill }⟩
    else none
  else none

/-- `detectAlberti`. -/
def detectAlberti (notes : List Note) (f : ExtractedFeatures) :
    Option ClassificationResult :=
  if f.staff ≠ 2 && 60 ≤ f.pitches.headD 0 then none
  else if notes.length < 4 then none
  else
    let groupCheck : Nat → Bool := fun k =>
      let p := (listSlice notes (4 * k) (4 * k + 4)).map (·.pitch)
      match p with
      | [p0, p1, p2, p3] => p0 < p2 && p2 < p1 && (p1 - p3).natAbs ≤ 1
      | _ => false
    let matchCount := (List.range (notes.length / 4)).countP groupCheck
    let totalGroups := notes.length / 4
    let matchFrac : Rat :=
      if 0 < totalGroups then (matchCount : Rat) / (totalGroups : Rat) else 0
    if 3/5 ≤ matchFrac then
      some ⟨PatternType.ALBERTI, min (19/20) (3/5 + matchFrac * (7/20)),
        { emptyFeatures with repeatCount := some matchCount }⟩
    else none

/-- Number of consecutive repetitions of the length-`L` prefix pattern,
starting at index `L` and stopping at the first mismatch
(the inner loop of `detectOstinato`). -/
def ostinatoRepeats (pitches : List Int) (pattern : List Int) (L : Nat) : Nat :=
  ((List.range pitches.length).takeWhile (fun k =>
    let i := (k + 1) * L
    i + L ≤ pitches.length && listSlice pitches i (i + L) = pattern)).length

/-- `detectOstinato`. -/
def detectOstinato (notes : List Note) (_f : ExtractedFeatures) :
    Option ClassificationResult :=
  let pitches := notes.map (·.pitch)
  let n := notes.length
  let tryLen : Nat → Option ClassificationResult := fun L =>
    let pattern := (listSlice notes 0 L).map (·.pitch)
    let repeatCount := ostinatoRepeats pitches pattern L
    if 2 ≤ repeatCount then
      some ⟨PatternType.OSTINATO, min (19/20) (7/10 + (repeatCount : Rat) * (1/20)),
        { emptyFeatures with
            repeatCount := some (repeatCount + 1)
            intervalPattern := some (computeIntervals pattern) }⟩
    else none
  (List.range' 2 (min 8 (n / 3) + 1 - 2)).findSome? tryLen

/-- `detectPolyphonic`. -/
def detectPolyphonic (notes : List Note) (_f : ExtractedFeatures) :
    Option ClassificationResult :=
  let voices := dedupFirst (notes.map (·.voice))
  if voices.length < 2 then none
  else
    match voices with
    | v1 :: v2 :: _ =>
      let beats1 := dedupFirst ((notes.filter (fun n => n.voice = v1)).map (·.beat))
      let beats2 := dedupFirst ((notes.filter (fun n => n.voice = v2)).map (·.beat))
      let overlap := beats1.countP (fun b => beats2.contains b)
      let correlation : Rat := (overlap : Rat) / ((max beats1.length beats2.length : Nat) : Rat)
      if correlation < 2/5 then
        some ⟨PatternType.POLYPHONIC, 4/5, emptyFeatures⟩
      else none
    | _ => none

/-- Longest run of equal adjacent pitches (`detectRepeated`, first half). -/
def maxRepeatRun (pitches : List Int) : Nat :=
  ((pitches.zip pitches.tail).foldl
    (fun acc p =>
      if p.1 = p.2 then (max acc.1 (acc.2 + 1), acc.2 + 1) else (acc.1, 1))
    (1, 1)).1

/-- `detectRepeated`. -/
def detectRepeated (notes : List Note) (f : ExtractedFeatures) :
    Option ClassificationResult :=
  let pitches := f.pitches
  let maxRepeat := maxRepeatRun pitches
  if 3 ≤ maxRepeat then
    some ⟨PatternType.REPEATED, min (19/20) (7/10 + (maxRepeat : Rat) * (1/20)),
      { emptyFeatures with
          repeatType := some RepeatKind.single
          repeatCount := some maxRepeat }⟩
  else if 4 ≤ pitches.length then
    let p0 := pitches.headD 0
    let p1 := pitches.getD 1 0
    let isAlternating :=
      (pitches.enum.all (fun q => if q.1 % 2 = 0 then q.2 = p0 else q.2 = p1))
    if isAlternating && p0 ≠ p1 then
      some ⟨PatternType.REPEATED, 17/20,
        { emptyFeatures with
            repeatType := some RepeatKind.alternating
            repeatCount := some (pitches.length / 2) }⟩
    else none
  else none

/-- Insertion into an ascending sorted list of integers. -/
def insertSortedInt (x : Int) : List Int → List Int
  | [] => [x]
  | y :: ys => if x ≤ y then x :: y :: ys else y :: insertSortedInt x ys

/-- Ascending numeric sort (JS `sort((a, b) => a - b)`). -/
def sortInts (l : List Int) : List Int := l.foldr insertSortedInt []

/-- Sorted distinct pitch classes `[...new Set(ps.map(p => p % 12))].sort(...)`. -/
def pitchClassesSorted (pitches : List Int) : List Int :=
  sortInts (dedupFirst (pitches.map (fun p => p.tmod 12)))

/-- `belongsToChord`. -/
def belongsToChord (pitches : List Int) : Bool :=
  let pcs := pitchClassesSorted pitches
  if pcs.length < 3 || 4 < pcs.length then false
  else
    match pcs with
    | [a, b, c] =>
      let i1 := (b - a + 12).tmod 12
      let i2 := (c - b + 12).tmod 12
      (i1 = 4 && i2 = 3) || (i1 = 3 && i2 = 4) ||
        (i1 = 3 && i2 = 3) || (i1 = 4 && i2 = 4)
    | [a, b, c, d] =>
      let i1 := (b - a + 12).tmod 12
      let i2 := (c - b + 12).tmod 12
      let _i3 := (d - c + 12).tmod 12
      3 ≤ i1 && i1 ≤ 4 && 3 ≤ i2 && i2 ≤ 4
    | _ => false

/-- `analyzeChord`. -/
def analyzeChord (pitches : List Int) : ChordKind × Int × Nat :=
  let pcs := pitchClassesSorted pitches
  if pcs.length < 3 then (ChordKind.complex, pcs.headD 0, 0)
  else
    match pcs with
    | a :: b :: c :: _ =>
      let i1 := (b - a + 12).tmod 12
      let i2 := (c - b + 12).tmod 12
      let kind :=
        if i1 = 4 && i2 = 3 then ChordKind.major
        else if i1 = 3 && i2 = 4 then ChordKind.minor
        else if i1 = 3 && i2 = 3 then ChordKind.diminished
        else if i1 = 4 && i2 = 4 then ChordKind.augmented
        else ChordKind.complex
      (kind, a, 0)
    | _ => (ChordKind.complex, pcs.headD 0, 0)

/-- Whether `needle` occurs as a contiguous run of `haystack`
(JS `String.prototype.includes`). -/
def charStartsWith : List Char → List Char → Bool
  | _, [] => true
  | [], _ :: _ => false
  | a :: as, b :: bs => a = b && charStartsWith as bs

def charContains : List Char → List Char → Bool
  | [], needle => needle.isEmpty
  | a :: rest, needle => charStartsWith (a :: rest) needle || charContains rest needle

/-- The comma-joined decimal rendering `absIntervals.join(',')` used by
the source's substring-based scale classification. -/
def intervalsJoined (absIntervals : List Nat) : List Char :=
  List.intercalate [','] (absIntervals.map (fun n => Nat.toDigits 10 n))

/-- `identifyScaleType` (faithful to the source's substring test on the
comma-joined interval string). -/
def identifyScaleType (intervals : List Int) : ScaleKind :=
  let absIntervals := intervals.map Int.natAbs
  if absIntervals.all (fun i => i = 1) then ScaleKind.chromatic
  else
    let s := intervalsJoined absIntervals
    if charContains s "2,2,1,2,2,2,1".toList || charContains s "2,2,1,2,2,2".toList then
      ScaleKind.major
    else if charContains s "2,1,2,2,1,2,2".toList || charContains s "2,1,2,2,2,1".toList then
      ScaleKind.minor
    else if absIntervals.all (fun i => i = 2 || i = 3) then ScaleKind.pentatonic
    else ScaleKind.modal

/-- `determineDirection`. -/
def determineDirection (f : ExtractedFeatures) : Direction :=
  if 3/4 < f.ascendingFrac then Direction.ascending
  else if 3/4 < f.descendingFrac then Direction.descending
  else if 1/2 < f.ascendingFrac && 3/10 < f.descendingFrac then Direction.bidirectional
  else Direction.mixed

/-- `determineArpeggioDirection`. -/
def determineArpeggioDirection (f : ExtractedFeatures) : Direction :=
  let mid := f.intervals.length / 2
  let firstHalf := listSlice f.intervals 0 mid
  let secondHalf := f.intervals.drop mid
  let firstDir := firstHalf.foldl (fun a b => a + intSign b) 0
  let secondDir := secondHalf.foldl (fun a b => a + intSign b) 0
  if 0 < firstDir && secondDir < 0 then Direction.bidirectional
  else if 0 < firstDir then Direction.ascending
  else if firstDir < 0 then Direction.descending
  else Direction.mixed

/-- `analyzeContour`. -/
def analyzeContour (f : ExtractedFeatures) : ContourKind :=
  if (f.intervals.length : Rat) * (1/2) < (f.directionChanges : Rat) then
    ContourKind.jagged
  else
    let mid := f.intervals.length / 2
    let firstTrend := (listSlice f.intervals 0 mid).foldl (· + ·) 0
    let secondTrend := (f.intervals.drop mid).foldl (· + ·) 0
    if 0 < firstTrend && secondTrend < 0 then ContourKind.arch
    else if firstTrend < 0 && 0 < secondTrend then ContourKind.valley
    else ContourKind.linear

/-- `classifyChordal`. -/
def classifyChordal (_notes : List Note) (f : ExtractedFeatures) :
    ClassificationResult :=
  let chord := analyzeChord f.pitches
  ⟨PatternType.CHORDAL, 9/10,
    { emptyFeatures with
        chordType := some chord.1
        chordRoot := some chord.2.1
        inversion := some chord.2.2 }⟩

/-- `classifyScale`. -/
def classifyScale (_notes : List Note) (f : ExtractedFeatures)
    (direction : Direction) : ClassificationResult :=
  ⟨PatternType.SCALE, 92/100,
    { emptyFeatures with
        direction := some direction
        scaleType := some (identifyScaleType f.intervals) }⟩

/-- `classifyArpeggio`. -/
def classifyArpeggio (_notes : List Note) (f : ExtractedFeatures) :
    ClassificationResult :=
  let chord := analyzeChord f.pitches
  ⟨PatternType.ARPEGGIO, 88/100,
    { emptyFeatures with
        direction := some (determineArpeggioDirection f)
        chordType := some chord.1
        chordRoot := some chord.2.1
        inversion := some chord.2.2 }⟩

/-- `classifyLeap`. -/
def classifyLeap (_notes : List Note) (f : ExtractedFeatures) :
    ClassificationResult :=
  ⟨PatternType.LEAP, 4/5,
    { emptyFeatures with
        contour := some (analyzeContour f)
        direction := some
          (if 3/5 < f.ascendingFrac then Direction.ascending
           else if 3/5 < f.descendingFrac then Direction.descending
           else Direction.mixed) }⟩

/-- `classifyMelodic`. -/
def classifyMelodic (_notes : List Note) (f : ExtractedFeatures) :
    ClassificationResult :=
  let style :=
    if f.hasSlur && 1 < f.avgDuration then MelodicStyle.cantabile
    else if 2/5 < f.durationVariance then MelodicStyle.expressive
    else if f.hasSlur then MelodicStyle.lyrical
    else MelodicStyle.neutral
  ⟨PatternType.MELODIC, 7/10, { emptyFeatures with style := some style }⟩

/-- `classifyPattern`: the priority-ordered decision tree. -/
def classifyPattern (notes : List Note) (f : ExtractedFeatures) :
    ClassificationResult :=
  match detectOrnamented notes f with
  | some r => r
  | none =>
  match detectAlberti notes f with
  | some r => r
  | none =>
  match detectOstinato notes f with
  | some r => r
  | none =>
  match detectPolyphonic notes f with
  | some r => r
  | none =>
  if 2 ≤ f.avgSimultaneity || 3 ≤ f.maxSimultaneity then
    classifyChordal notes f
  else if 4/5 ≤ f.stepwiseFrac && determineDirection f ≠ Direction.mixed then
    classifyScale notes f (determineDirection f)
  else if 1/2 ≤ f.leapFrac && belongsToChord f.pitches then
    classifyArpeggio notes f
  else if f.pitchEntropyLtHalf && (detectRepeated notes f).isSome then
    (detectRepeated notes f).getD (classifyMelodic notes f)
  else if 4 < f.maxInterval &&
      (notes.length : Rat) * (2/5) < (f.directionChanges : Rat) then
    classifyLeap notes f
  else if f.hasSlur || 3/10 < f.durationVariance then
    classifyMelodic notes f
  else
    ⟨PatternType.UNKNOWN, 1/2, emptyFeatures⟩

/-- `adaptWindowSize`. -/
def adaptWindowSize (notes : List Note) (startIdx : Nat) : Nat :=
  let lookAhead := min 16 (notes.length - startIdx)
  if lookAhead < 4 then lookAhead
  else
    let window := listSlice notes startIdx (startIdx + lookAhead)
    let avgDuration := ratSum (window.map (·.duration)) / (window.length : Rat)
    if avgDuration < 1/4 then 16
    else if avgDuration < 1/2 then 12
    else if 2 < avgDuration then 4
    else 8

/-- The windowed sliding loop of `recognizeHandPatterns` (the
`notes.indexOf` calls resolve by object identity in the source and
therefore return the window's own start and end positions).  The first
argument bounds the number of remaining iterations; since the cursor
advances by at least 1 per iteration, any fuel of at least
`notes.length - i` reproduces the source loop exactly. -/
def recognizeLoopGo (notes : List Note) : Nat → Nat → List PatternSegment
  | 0, _ => []
  | fuel + 1, i =>
    if i < notes.length then
      let windowSize := adaptWindowSize notes i
      let windowEnd := min (i + windowSize) notes.length
      let window := listSlice notes i windowEnd
      if window.length < 2 then recognizeLoopGo notes fuel (i + 1)
      else
        let f := extractFeatures window
        let result := classifyPattern window f
        { startIndex := i, endIndex := windowEnd - 1,
          patternType := result.type, confidence := result.confidence,
          features := result.features } ::
          recognizeLoopGo notes fuel (i + max 1 (windowSize / 2))
    else []

def recognizeLoop (notes : List Note) (i : Nat) : List PatternSegment :=
  recognizeLoopGo notes (notes.length - i) i

/-- The merge walk of `postProcess` (the running segment is `current`;
Nat subtraction agrees with the source because segment ends never drop
below their starts). -/
def postProcessGo (current : PatternSegment) :
    List PatternSegment → List PatternSegment
  | [] => [current]
  | next :: rest =>
    if current.patternType = next.patternType ||
        current.endIndex - current.startIndex < 3 then
      postProcessGo
        { current with
            endIndex := next.endIndex
            confidence := max current.confidence next.confidence } rest
    else current :: postProcessGo next rest

/-- `postProcess`. -/
def postProcess (segments : List PatternSegment) : List PatternSegment :=
  match segments with
  | [] => []
  | s :: rest => postProcessGo s rest

/-- `recognizeHandPatterns`. -/
def recognizeHandPatterns (notes : List Note) (_hand : Hand) :
    List PatternSegment :=
  if notes.length = 0 then []
  else postProcess (recognizeLoop notes 0)

/-- Stable insertion by `startIndex` (JS `sort` is stable and is handed
`(a, b) => a.startIndex - b.startIndex`). -/
def insertSegSorted (s : PatternSegment) :
    List PatternSegment → List PatternSegment
  | [] => [s]
  | y :: ys =>
    if s.startIndex ≤ y.startIndex then s :: y :: ys
    else y :: insertSegSorted s ys

def sortSegsByStart (l : List PatternSegment) : List PatternSegment :=
  l.foldr insertSegSorted []

/-- `recognizePatterns`: split by hand, recognize per hand, merge sorted. -/
def recognizePatterns (notes : List Note) : List PatternSegment :=
  if notes.length = 0 then []
  else
    let rhNotes := notes.filter (fun n => n.hand = Hand.RH)
    let lhNotes := notes.filter (fun n => n.hand = Hand.LH)
    sortSegsByStart
      (recognizeHandPatterns rhNotes Hand.RH ++
        recognizeHandPatterns lhNotes Hand.LH)

end PianoFingering

namespace PianoFingering

/-! ## Fingering planner -/

inductive Difficulty where
  | beginner
  | intermediate
  | advanced
deriving DecidableEq, Repr

/-- The difficulty-specific configuration record. -/
structure DifficultyConfig where
  thumbCrossingPenalty : Rat
  positionChangePenalty : Rat
  finger4Penalty : Rat
  finger5Penalty : Rat
  stretchPenalty : Rat
  maxComfortableSpan : Rat
  preferSimplePatterns : Bool
  allowThumbOnBlack : Bool
deriving DecidableEq, Repr

/-- `getDifficultyConfig`. -/
def getDifficultyConfig : Difficulty → DifficultyConfig
  | Difficulty.beginner =>
    { thumbCrossingPenalty := 80, positionChangePenalty := 60
      finger4Penalty := 15, finger5Penalty := 10, stretchPenalty := 25
      maxComfortableSpan := 5, preferSimplePatterns := true
      allowThumbOnBlack := false }
  | Difficulty.advanced =>
    { thumbCrossingPenalty := 10, positionChangePenalty := 15
      finger4Penalty := 0, finger5Penalty := 0, stretchPenalty := 5
      maxComfortableSpan := 9, preferSimplePatterns := false
      allowThumbOnBlack := true }
  | Difficulty.intermediate =>
    { thumbCrossingPenalty := 30, positionChangePenalty := 30
      finger4Penalty := 5, finger5Penalty := 5, stretchPenalty := 12
      maxComfortableSpan := 7, preferSimplePatterns := false
      allowThumbOnBlack := false }

/-- The finger scan order `[1, 2, 3, 4, 5]` used by every planner loop. -/
def fingersL : List Nat := [1, 2, 3, 4, 5]

/-- `naturalSpans` lookup (symmetric; 0 when the key is absent,
mirroring `this.naturalSpans[key] || 0`). -/
def getNaturalSpan (finger1 finger2 : Nat) : Rat :=
  match min finger1 finger2, max finger1 finger2 with
  | 1, 2 => 2
  | 2, 3 => 2
  | 3, 4 => 1
  | 4, 5 => 2
  | 1, 3 => 4
  | 2, 4 => 3
  | 3, 5 => 3
  | 1, 4 => 5
  | 2, 5 => 5
  | 1, 5 => 8
  | _, _ => 0

/-- `isBlackKey`. -/
def isBlackKey (pitch : Int) : Bool :=
  let pitchClass := pitch.tmod 12
  pitchClass = 1 || pitchClass = 3 || pitchClass = 6 ||
    pitchClass = 8 || pitchClass = 10

/-- `getExpectedFinger`. -/
def getExpectedFinger (offset : Int) (hand : Hand) : Nat :=
  match hand with
  | Hand.RH =>
    if offset ≤ 0 then 1
    else if offset ≤ 2 then 2
    else if offset ≤ 4 then 3
    else if offset ≤ 6 then 4
    else 5
  | Hand.LH =>
    if 0 ≤ offset then 1
    else if -2 ≤ offset then 2
    else if -4 ≤ offset then 3
    else if -6 ≤ offset then 4
    else 5

/-- Hand-position anchor entries produced by `analyzeHandPositions`
(the source always sets `inPosition: true`). -/
structure HandPos where
  anchorPitch : Int
  inPosition : Bool
deriving DecidableEq, Repr

/-- The pitch-cluster scan of `analyzeHandPositions`: `pending` notes of
the open segment await their anchor; a close assigns the anchor computed
from the pre-update running min/max. -/
def ahpGo (hand : Hand) (minPitch maxPitch : Int) (pending : Nat) :
    List Note → List HandPos
  | [] =>
    List.replicate pending
      ⟨if hand = Hand.RH then minPitch else maxPitch, true⟩
  | note :: rest =>
    let pitch := note.pitch
    let newMin := min minPitch pitch
    let newMax := max maxPitch pitch
    if 8 < newMax - newMin then
      List.replicate pending
          ⟨if hand = Hand.RH then minPitch else maxPitch, true⟩ ++
        ahpGo hand pitch pitch 1 rest
    else ahpGo hand newMin newMax (pending + 1) rest

/-- `analyzeHandPositions`. -/
def analyzeHandPositions (notes : List Note) (hand : Hand) : List HandPos :=
  match notes with
  | [] => []
  | n0 :: _ => ahpGo hand n0.pitch n0.pitch 0 notes

/-- Scale segments found by `detectScaleSegments` (`endIdx` is the
source's inclusive `end`). -/
structure ScaleSeg where
  start : Nat
  endIdx : Nat
  ascending : Bool
deriving DecidableEq, Repr

/-- The running-state scan of `detectScaleSegments`; `i` is the index of
`note` in the full stream. -/
def dssGo (prevPitch : Int) (segStart : Nat) (direction : Int)
    (stepCount : Nat) (i : Nat) : List Note → List ScaleSeg
  | [] => if 4 ≤ stepCount then [⟨segStart, i - 1, 0 < direction⟩] else []
  | note :: rest =>
    let interval := note.pitch - prevPitch
    let absInterval := interval.natAbs
    let isStep := absInterval = 1 || absInterval = 2
    let currDir := intSign interval
    if isStep && (currDir = direction || direction = 0) then
      dssGo note.pitch segStart (if direction = 0 then currDir else direction)
        (stepCount + 1) (i + 1) rest
    else
      (if 4 ≤ stepCount then [⟨segStart, i - 1, 0 < direction⟩] else []) ++
        dssGo note.pitch i (if isStep then currDir else 0)
          (if isStep then 1 else 0) (i + 1) rest

/-- `detectScaleSegments`. -/
def detectScaleSegments (notes : List Note) : List ScaleSeg :=
  if notes.length < 5 then []
  else
    match notes with
    | [] => []
    | n0 :: rest => dssGo n0.pitch 0 0 0 1 rest

/-- Whether note index `i` falls in some detected scale segment. -/
def inScaleAt (scaleSegs : List ScaleSeg) (i : Nat) : Bool :=
  scaleSegs.any (fun s => s.start ≤ i && i ≤ s.endIdx)

/-- `computeInitialCost` (the explanation strings are dropped). -/
def computeInitialCost (level : Difficulty) (cfg : DifficultyConfig)
    (finger : Nat) (note : Note) (hand : Hand) (pos : HandPos) : Rat :=
  let offset := note.pitch - pos.anchorPitch
  let expectedFinger := getExpectedFinger offset hand
  let matchCost : Rat :=
    if finger = expectedFinger then -25
    else (((finger : Int) - (expectedFinger : Int)).natAbs : Rat) * 12
  let beginnerCost : Rat :=
    if level = Difficulty.beginner then
      (if finger = 4 then cfg.finger4Penalty else 0) +
        (if finger = 5 then cfg.finger5Penalty else 0) +
        (if finger = 1 ∨ finger = 2 ∨ finger = 3 then -5 else 0)
    else 0
  let blackCost : Rat :=
    if isBlackKey note.pitch then
      if finger = 1 ∨ finger = 5 then
        (if cfg.allowThumbOnBlack then 10 else 25)
      else -8
    else 0
  matchCost + beginnerCost + blackCost

/-- `isNaturalProgression`. -/
def isNaturalProgression (prevFinger currFinger : Nat) (ascending : Bool)
    (hand : Hand) : Bool :=
  let fingerDiff : Int := (currFinger : Int) - (prevFinger : Int)
  match hand with
  | Hand.RH => (ascending && 0 < fingerDiff) || (!ascending && fingerDiff < 0)
  | Hand.LH => (ascending && fingerDiff < 0) || (!ascending && 0 < fingerDiff)

/-- `isThumbCrossing`. -/
def isThumbCrossing (prevFinger currFinger : Nat) : Bool :=
  (prevFinger = 1 && 1 < currFinger) || (1 < prevFinger && currFinger = 1)

/-- `isFingerCrossing`: the source's predicate is dormant — after the
thumb guard it unconditionally returns `false`. -/
def isFingerCrossing (prevFinger currFinger : Nat) : Bool :=
  if prevFinger = 1 || currFinger = 1 then false
  else false

/-- `computeScaleCost`. -/
def computeScaleCost (prevFinger currFinger : Nat) (ascending : Bool)
    (hand : Hand) (cfg : DifficultyConfig) : Rat :=
  let rhAscending := hand = Hand.RH ∧ ascending = true
  let rhDescending := hand = Hand.RH ∧ ascending = false
  let lhAscending := hand = Hand.LH ∧ ascending = true
  let lhDescending := hand = Hand.LH ∧ ascending = false
  let goodUp : List (Nat × Nat) := [(1, 2), (2, 3), (3, 1), (3, 4), (4, 5), (4, 1)]
  let goodDown : List (Nat × Nat) :=
    [(5, 4), (4, 3), (3, 2), (2, 1), (1, 3), (1, 2), (1, 4)]
  let upCost : Rat :=
    if (rhAscending ∨ lhDescending) ∧ goodUp.contains (prevFinger, currFinger)
    then -25 else 0
  let downCost : Rat :=
    if (rhDescending ∨ lhAscending) ∧ goodDown.contains (prevFinger, currFinger)
    then -25 else 0
  let sameCost : Rat := if currFinger = prevFinger then 50 else 0
  let simpleCost : Rat :=
    if cfg.preferSimplePatterns ∧ isThumbCrossing prevFinger currFinger = true
    then 20 else 0
  upCost + downCost + sameCost + simpleCost

/-- `isGoodArpeggioFingering`. -/
def isGoodArpeggioFingering (prevFinger currFinger : Nat) (ascending : Bool)
    (hand : Hand) : Bool :=
  match hand with
  | Hand.RH =>
    if ascending then
      decide (prevFinger < currFinger) || (decide (3 ≤ prevFinger) && decide (currFinger = 1))
    else
      decide (currFinger < prevFinger) || (decide (prevFinger = 1) && decide (3 ≤ currFinger))
  | Hand.LH =>
    if ascending then
      decide (currFinger < prevFinger) || (decide (prevFinger = 1) && decide (3 ≤ currFinger))
    else
      decide (prevFinger < currFinger) || (decide (3 ≤ prevFinger) && decide (currFinger = 1))

/-- Rule 1: same finger on different pitch. -/
def ruleSameFinger (prevFinger currFinger : Nat) (interval : Int) : Rat :=
  if currFinger = prevFinger ∧ interval ≠ 0
  then 40 + (interval.natAbs : Rat) * 5 else 0

/-- Rule 2: repeated note — prefer a finger change. -/
def ruleRepeat (prevFinger currFinger : Nat) (interval : Int) : Rat :=
  if interval = 0 then (if currFinger = prevFinger then 25 else -10) else 0

/-- Rule 3: natural progression / thumb crossing / finger crossing. -/
def ruleProgression (cfg : DifficultyConfig) (prevFinger currFinger : Nat)
    (interval : Int) (hand : Hand) (patternContext : PatternType)
    (inScale : Bool) : Rat :=
  if interval ≠ 0 then
    if isNaturalProgression prevFinger currFinger (0 < interval) hand then -20
    else if isThumbCrossing prevFinger currFinger then
      (if inScale = true ∨ patternContext = PatternType.SCALE then
        cfg.thumbCrossingPenalty / 3
      else cfg.thumbCrossingPenalty)
    else if isFingerCrossing prevFinger currFinger then 80
    else 0
  else 0

/-- Rule 4: span constraint. -/
def ruleSpan (cfg : DifficultyConfig) (prevFinger currFinger : Nat)
    (interval : Int) : Rat :=
  let naturalSpan := getNaturalSpan prevFinger currFinger
  let overStretch : Rat := (interval.natAbs : Rat) - naturalSpan
  if 0 < overStretch then
    if cfg.maxComfortableSpan - naturalSpan < overStretch then 200
    else overStretch * cfg.stretchPenalty
  else 0

/-- Rule 5: position-based fingering. -/
def rulePosition (currNote : Note) (currFinger : Nat) (hand : Hand)
    (pos : HandPos) (inScale : Bool) : Rat :=
  if pos.inPosition = true ∧ ¬ inScale = true then
    let expectedFinger := getExpectedFinger (currNote.pitch - pos.anchorPitch) hand
    if currFinger = expectedFinger then -15
    else (((currFinger : Int) - (expectedFinger : Int)).natAbs : Rat) * 8
  else 0

/-- Rule 6: scale-specific fingering. -/
def ruleScale (cfg : DifficultyConfig) (prevFinger currFinger : Nat)
    (interval : Int) (hand : Hand) (patternContext : PatternType)
    (inScale : Bool) : Rat :=
  if inScale = true ∨ patternContext = PatternType.SCALE then
    computeScaleCost prevFinger currFinger (0 < interval) hand cfg
  else 0

/-- Rule 7: black-key preference. -/
def ruleBlackKey (cfg : DifficultyConfig) (currNote : Note)
    (currFinger : Nat) : Rat :=
  if isBlackKey currNote.pitch then
    if currFinger = 1 then (if cfg.allowThumbOnBlack then 15 else 35)
    else if currFinger = 5 then 20
    else -5
  else 0

/-- Rule 8: difficulty-specific finger preferences. -/
def ruleDifficulty (level : Difficulty) (cfg : DifficultyConfig)
    (prevFinger currFinger : Nat) (currNote : Note) (interval : Int) : Rat :=
  match level with
  | Difficulty.beginner =>
    (if currFinger = 4 then cfg.finger4Penalty else 0) +
      (if currFinger = 5 ∧ ¬ isBlackKey currNote.pitch = true then
        cfg.finger5Penalty
      else 0) +
      (if ((currFinger : Int) - (prevFinger : Int)).natAbs ≤ 1 ∧
          (interval.natAbs : Rat) ≤ 2 then -10 else 0)
  | Difficulty.advanced =>
    if 5 < (interval.natAbs : Rat) ∧ isThumbCrossing prevFinger currFinger = true
    then -10 else 0
  | Difficulty.intermediate => 0

/-- Rule 9: arpeggio pattern. -/
def ruleArpeggio (prevFinger currFinger : Nat) (interval : Int) (hand : Hand)
    (patternContext : PatternType) : Rat :=
  if patternContext = PatternType.ARPEGGIO then
    (if isGoodArpeggioFingering prevFinger currFinger (0 < interval) hand
     then -15 else 0)
  else 0

/-- `computeTransitionCost`, written as the sum of its nine rule
contributions in source order (each `if` mirrors a `cost += …` site;
explanation strings are dropped). -/
def computeTransitionCost (level : Difficulty) (cfg : DifficultyConfig)
    (prevNote : Note) (prevFinger : Nat) (currNote : Note) (currFinger : Nat)
    (patternContext : PatternType) (hand : Hand) (pos : HandPos)
    (inScale : Bool) : Rat :=
  let interval := currNote.pitch - prevNote.pitch
  ruleSameFinger prevFinger currFinger interval +
    ruleRepeat prevFinger currFinger interval +
    ruleProgression cfg prevFinger currFinger interval hand patternContext inScale +
    ruleSpan cfg prevFinger currFinger interval +
    rulePosition currNote currFinger hand pos inScale +
    ruleScale cfg prevFinger currFinger interval hand patternContext inScale +
    ruleBlackKey cfg currNote currFinger +
    ruleDifficulty level cfg prevFinger currFinger currNote interval +
    ruleArpeggio prevFinger currFinger interval hand patternContext

/-- `getPatternContext` — note the source's first loop tests the note's
`measureNumber` against the segment's note-index bounds. -/
def getPatternContext (notes : List Note) (index : Nat)
    (patterns : List PatternSegment) : PatternType :=
  let note := notes.getD index defaultNote
  match patterns.find? (fun p =>
      p.startIndex ≤ note.measureNumber && note.measureNumber ≤ p.endIndex) with
  | some p => p.patternType
  | none =>
    match patterns.find? (fun p => p.startIndex ≤ index && index ≤ p.endIndex) with
    | some p => p.patternType
    | none => PatternType.UNKNOWN

/-- One DP state: best cost so far and the predecessor finger
(the source's string keys `"i-finger"` are just the previous finger). -/
structure DPState where
  cost : Rat
  parent : Option Nat
deriving DecidableEq, Repr

/-- A DP layer: slot `f - 1` holds the state for finger `f`. -/
def layerGet (layer : List (Option DPState)) (finger : Nat) : Option DPState :=
  (layer.getD (finger - 1) none)

/-- One step of the inner predecessor scan: strict `<` keeps the first
argmin in the source's `1,2,3,4,5` scan order; transitions with cost
above 500 are pruned. -/
def transAccum (prevLayer : List (Option DPState)) (tcost : Nat → Nat → Rat)
    (toFinger : Nat) (best : Option DPState) (fromFinger : Nat) :
    Option DPState :=
  match layerGet prevLayer fromFinger with
  | none => best
  | some prevState =>
    let t := tcost fromFinger toFinger
    if 500 < t then best
    else
      let total := prevState.cost + t
      match best with
      | none => some ⟨total, some fromFinger⟩
      | some b =>
        if total < b.cost then some ⟨total, some fromFinger⟩ else best

/-- The inner predecessor scan for one target finger. -/
def transStep (prevLayer : List (Option DPState)) (tcost : Nat → Nat → Rat)
    (toFinger : Nat) : Option DPState :=
  List.foldl (transAccum prevLayer tcost toFinger) none fingersL

/-- One forward step of the DP. -/
def dpStep (prevLayer : List (Option DPState)) (tcost : Nat → Nat → Rat) :
    List (Option DPState) :=
  fingersL.map (transStep prevLayer tcost)

/-- All DP layers, generated from the initial layer and the per-index
transition cost `tc i fromFinger toFinger` (for the transition into
note `i`). -/
def dpLayersGen (init : List (Option DPState))
    (tc : Nat → Nat → Nat → Rat) : Nat → List (Option DPState)
  | 0 => init
  | i + 1 => dpStep (dpLayersGen init tc i) (tc (i + 1))

/-- The transition cost the DP uses at note index `i`. -/
def dpTransCostW (level : Difficulty) (cfg : DifficultyConfig)
    (notes : List Note) (ctx : Nat → PatternType) (hand : Hand)
    (positions : List HandPos) (scaleSegs : List ScaleSeg)
    (i fromFinger toFinger : Nat) : Rat :=
  computeTransitionCost level cfg (notes.getD (i - 1) defaultNote) fromFinger
    (notes.getD i defaultNote) toFinger (ctx i) hand
    (positions.getD i ⟨0, true⟩) (inScaleAt scaleSegs i)

/-- The final scan of `backtrack`: first strict minimum over insertion
order `1..5`; the fallback finger is 3 and the fallback cost is the
source's `Infinity`, modelled as `none`. -/
def chooseAccum (lastLayer : List (Option DPState)) (acc : Nat × Option Rat)
    (f : Nat) : Nat × Option Rat :=
  match layerGet lastLayer f with
  | none => acc
  | some st =>
    match acc.2 with
    | none => (f, some st.cost)
    | some c => if st.cost < c then (f, some st.cost) else acc

def chooseFinalState (lastLayer : List (Option DPState)) : Nat × Option Rat :=
  List.foldl (chooseAccum lastLayer) (3, none) fingersL

/-- The backward walk of `backtrack`: `fingering[i] = currentFinger`,
then follow the parent pointer when it exists. -/
def backtrackFrom (layers : Nat → List (Option DPState)) :
    Nat → Nat → List Nat
  | 0, finger => [finger]
  | i + 1, finger =>
    let st := layerGet (layers (i + 1)) finger
    let prevFinger :=
      match st with
      | some s => s.parent.getD finger
      | none => finger
    backtrackFrom layers i prevFinger ++ [finger]

/-- Addition of costs where `none` is the source's `Infinity`. -/
def optAdd : Option Rat → Option Rat → Option Rat
  | some a, some b => some (a + b)
  | _, _ => none

/-- `a ≤ b` on costs where `none` is `Infinity`. -/
def costLE : Option Rat → Option Rat → Prop
  | _, none => True
  | none, some _ => False
  | some a, some b => a ≤ b

instance : DecidablePred (fun p : Option Rat × Option Rat => costLE p.1 p.2) :=
  fun p => by
    cases p with
    | mk a b =>
      cases a <;> cases b <;> simp only [costLE] <;> infer_instance

instance (a b : Option Rat) : Decidable (costLE a b) := by
  cases a <;> cases b <;> simp only [costLE] <;> infer_instance

/-- `FingeringSolution` (fingering vector and total cost; the `path`
and `explanations` diagnostics are dropped). -/
structure FingeringSolution where
  fingering : List Nat
  totalCost : Option Rat
deriving DecidableEq, Repr

def emptySolution : FingeringSolution := ⟨[], some 0⟩

/-- The initial DP layer (`dp[0]`): one state per finger in scan order. -/
def dpInitW (level : Difficulty) (notes : List Note) (hand : Hand) :
    List (Option DPState) :=
  fingersL.map (fun f =>
    some ⟨computeInitialCost level (getDifficultyConfig level) f
      (notes.getD 0 defaultNote) hand
      ((analyzeHandPositions notes hand).getD 0 ⟨0, true⟩), none⟩)

/-- The transition cost used at note index `i` by the DP over `notes`
with pattern-context function `ctx`. -/
def dpTransW (level : Difficulty) (notes : List Note)
    (ctx : Nat → PatternType) (hand : Hand) (i fromFinger toFinger : Nat) :
    Rat :=
  dpTransCostW level (getDifficultyConfig level) notes ctx hand
    (analyzeHandPositions notes hand) (detectScaleSegments notes)
    i fromFinger toFinger

/-- All DP layers of the forward pass. -/
def dpLayersW (level : Difficulty) (notes : List Note)
    (ctx : Nat → PatternType) (hand : Hand) : Nat → List (Option DPState) :=
  dpLayersGen (dpInitW level notes hand) (dpTransW level notes ctx hand)

/-- `dpOptimization`, parameterized by the pattern-context function the
forward pass consults at each index (`dpOptimization` itself passes
`getPatternContext`). -/
def dpOptimizationWith (level : Difficulty) (notes : List Note)
    (ctx : Nat → PatternType) (hand : Hand) : FingeringSolution :=
  if notes.length = 0 then emptySolution
  else
    let n := notes.length
    let layers := dpLayersW level notes ctx hand
    let final := chooseFinalState (layers (n - 1))
    ⟨backtrackFrom layers (n - 1) final.1, final.2⟩

/-- `dpOptimization`. -/
def dpOptimization (level : Difficulty) (notes : List Note)
    (patterns : List PatternSegment) (hand : Hand) : FingeringSolution :=
  dpOptimizationWith level notes (fun i => getPatternContext notes i patterns) hand

/-- Chunk start offsets `0, 28, 56, …` (`i += chunkSize - overlapSize`);
the fuel bounds the iteration count and any fuel of at least `n - i`
reproduces the source loop, since the cursor advances by 28 each time. -/
def chunkStartsGo : Nat → Nat → Nat → List Nat
  | 0, _, _ => []
  | fuel + 1, n, i => if i < n then i :: chunkStartsGo fuel n (i + 28) else []

def chunkStarts (n : Nat) : List Nat := chunkStartsGo n n 0

/-- `chunkedOptimization`: 32-note chunks starting every 28 notes; the
first chunk's solution is kept whole, later chunks drop their 4 overlap
entries; the total is the plain sum of chunk totals. -/
def chunkedOptimization (level : Difficulty) (notes : List Note)
    (patterns : List PatternSegment) (hand : Hand) : FingeringSolution :=
  let chunks := (chunkStarts notes.length).map
    (fun i => listSlice notes i (min (i + 32) notes.length))
  let chunkSolutions := chunks.map (fun c => dpOptimization level c patterns hand)
  let fingering :=
    match chunkSolutions with
    | [] => []
    | s0 :: rest => s0.fingering ++ (rest.map (fun s => s.fingering.drop 4)).join
  ⟨fingering,
    chunkSolutions.foldl (fun acc s => optAdd acc s.totalCost) (some 0)⟩

/-- `planHandFingering`. -/
def planHandFingering (level : Difficulty) (notes : List Note)
    (patterns : List PatternSegment) (hand : Hand) : FingeringSolution :=
  if notes.length = 0 then emptySolution
  else if 64 < notes.length then chunkedOptimization level notes patterns hand
  else dpOptimization level notes patterns hand

/-- The merge walk of `planFingering`: per-hand counters, defaulting to
finger 3 when a hand solution is exhausted (`|| 3`). -/
def mergeGo (rhF lhF : List Nat) : List Note → Nat → Nat → List Nat
  | [], _, _ => []
  | note :: rest, rhIdx, lhIdx =>
    match note.hand with
    | Hand.RH => rhF.getD rhIdx 3 :: mergeGo rhF lhF rest (rhIdx + 1) lhIdx
    | Hand.LH => lhF.getD lhIdx 3 :: mergeGo rhF lhF rest rhIdx (lhIdx + 1)

/-- `planFingering`. -/
def planFingering (level : Difficulty) (notes : List Note)
    (patterns : List PatternSegment) : FingeringSolution :=
  if notes.length = 0 then emptySolution
  else
    let rhNotes := notes.filter (fun n => n.hand = Hand.RH)
    let lhNotes := notes.filter (fun n => n.hand = Hand.LH)
    let rhSolution := planHandFingering level rhNotes patterns Hand.RH
    let lhSolution := planHandFingering level lhNotes patterns Hand.LH
    ⟨mergeGo rhSolution.fingering lhSolution.fingering notes 0 0,
      optAdd rhSolution.totalCost lhSolution.totalCost⟩

end PianoFingering

namespace PianoFingering

/-! ## Derived definitions used by the verification statements -/

/-- A legal finger label. -/
def FingerOK (f : Nat) : Prop := 1 ≤ f ∧ f ≤ 5

/-- The candidate cost the inner predecessor scan considers for
predecessor `fromFinger` of target `toFinger`: absent when the
predecessor state is missing or the single-step cost exceeds the
prune bound 500. -/
def candCost (prevLayer : List (Option DPState)) (tcost : Nat → Nat → Rat)
    (toFinger fromFinger : Nat) : Option Rat :=
  match layerGet prevLayer fromFinger with
  | none => none
  | some st =>
    if 500 < tcost fromFinger toFinger then none
    else some (st.cost + tcost fromFinger toFinger)

/-- Spec-side selection following the spec's words: scan the list in
order and keep the first argmin (ties keep the earlier element). -/
def pickFirstMin (cand : Nat → Option Rat) : List Nat → Option (Nat × Rat)
  | [] => none
  | g :: t =>
    match cand g, pickFirstMin cand t with
    | none, r => r
    | some c, none => some (g, c)
    | some c, some gc => if c ≤ gc.2 then some (g, c) else some gc

/-- Spec-side combination of an already-scanned best state with a later
candidate: the later candidate wins only when strictly smaller, matching
the source's strict `<` update. -/
def mergeStep (acc : Option DPState) : Option (Nat × Rat) → Option DPState
  | none => acc
  | some gc =>
    match acc with
    | none => some ⟨gc.2, some gc.1⟩
    | some b => if gc.2 < b.cost then some ⟨gc.2, some gc.1⟩ else some b

/-- The final-scan candidate cost of finger `f`. -/
def candFinal (lastLayer : List (Option DPState)) (f : Nat) : Option Rat :=
  (layerGet lastLayer f).map (fun st => st.cost)

/-- Spec-side combination for the final scan (fallback finger 3,
fallback cost `Infinity = none`). -/
def mergeBest (acc : Nat × Option Rat) : Option (Nat × Rat) → Nat × Option Rat
  | none => acc
  | some gc =>
    match acc.2 with
    | none => (gc.1, some gc.2)
    | some cb => if gc.2 < cb then (gc.1, some gc.2) else acc

/-- Number of notes of hand `h` strictly before global index `i`
(the per-hand position of note `i` in its hand-local stream). -/
def handRank (notes : List Note) (h : Hand) (i : Nat) : Nat :=
  ((notes.take i).filter (fun n => n.hand = h)).length

/-- Strictly ascending stepwise streams: each pitch rises by 1 or 2. -/
def StrictAscStepwise (notes : List Note) : Prop :=
  List.Chain' (fun a b => b.pitch - a.pitch = 1 ∨ b.pitch - a.pitch = 2) notes

instance (notes : List Note) : Decidable (StrictAscStepwise notes) :=
  inferInstanceAs (Decidable (List.Chain'
    (fun a b : Note => b.pitch - a.pitch = 1 ∨ b.pitch - a.pitch = 2) notes))

/-- A note carrying only a pitch (every other field defaulted); the DP
reads nothing else once the pattern context is fixed. -/
def canonNote (p : Int) : Note := { defaultNote with pitch := p }

def pitchShift (d : Int) (n : Note) : Note := { n with pitch := n.pitch + d }

/-- Four-note strictly ascending stepwise stream with steps `a b c`. -/
def mkScale4 (p : Int) (a b c : Nat) : List Note :=
  [canonNote p, canonNote (p + a), canonNote (p + a + b),
    canonNote (p + a + b + c)]

/-! ## Concrete inputs referenced by the statements -/

def mkTestNote (p : Int) (beat : Rat) : Note :=
  { defaultNote with pitch := p, beat := beat, duration := 1, measureNumber := 1 }

/-- A single-voice staff-1 stream with the given pitches, one note per
beat, no chord/grace/slur/ornament flags. -/
def mkTestStream (ps : List Int) : List Note :=
  ps.enum.map (fun q => mkTestNote q.2 (q.1 : Rat))

def c1notes : List Note := mkTestStream [60, 62, 64, 65, 67, 69, 71, 72]

def c1spec : List Note → List PatternSegment := recognizePatterns

def c3notes : List Note :=
  mkTestStream [60, 62, 64, 65, 67, 69, 71, 72, 72, 72, 60, 72]

def dfltSeg : PatternSegment :=
  ⟨0, 0, PatternType.UNKNOWN, 0, emptyFeatures⟩

def c6notes : List Note := mkTestStream [60, 70, 60, 70, 68, 67, 66, 65]

def c6wnotes : List Note := mkTestStream [60, 70, 60, 70, 60, 61, 62, 63]

def c4notes : List Note := List.replicate 6 (mkTestNote 60 0)

def c4patterns : List PatternSegment :=
  [⟨0, 1, PatternType.SCALE, 92/100, emptyFeatures⟩,
   ⟨2, 5, PatternType.ARPEGGIO, 88/100, emptyFeatures⟩]

def c7seg0 : PatternSegment := ⟨0, 2, PatternType.SCALE, 92/100, emptyFeatures⟩

def c7seg1 : PatternSegment := ⟨3, 5, PatternType.ARPEGGIO, 88/100, emptyFeatures⟩

def mkTestNoteH (p : Int) (beat : Rat) (h : Hand) : Note :=
  { mkTestNote p beat with hand := h }

def c2wnotes : List Note :=
  [mkTestNoteH 60 0 Hand.RH, mkTestNoteH 40 0 Hand.LH, mkTestNoteH 62 1 Hand.RH]

def c8wLayer : List (Option DPState) :=
  [some ⟨5, none⟩, some ⟨3, none⟩, some ⟨3, none⟩, some ⟨7, none⟩, none]

def c8wT : Nat → Nat → Rat := fun g f => (g : Rat) - (f : Rat)

def c9wnotes : List Note := mkScale4 60 2 2 1

def c10notes : List Note := mkTestStream (List.replicate 70 (60 : Int))

end PianoFingering

namespace PianoFingering

/-! ## Theorems -/

/-- C1, counterexample: on the ascending C-major octave
`[60,62,64,65,67,69,71,72]` (staff 1, single voice, uniform duration,
difficulty intermediate) the planner does not return the claimed
`[1,2,3,1,2,3,4,5]`: the DP's optimum is `[1,2,3,4,1,2,3,4]`
(putting the 3→4 step on the two semitone intervals avoids the
stretch penalty of the 3-4 span on a whole step). -/
theorem c1_fingering_counterexample :
    (planFingering Difficulty.intermediate c1notes
        (recognizePatterns c1notes)).fingering = [1, 2, 3, 4, 1, 2, 3, 4] ∧
    (planFingering Difficulty.intermediate c1notes
        (recognizePatterns c1notes)).fingering ≠ [1, 2, 3, 1, 2, 3, 4, 5] := by
  constructor
  · with_unfolding_all decide
  · with_unfolding_all decide

/-- C1 (corrected): on the ascending C-major octave the recognizer
produces a single SCALE segment with direction ascending and scale type
major, and the planner (difficulty intermediate) returns the finger
sequence `[1,2,3,4,1,2,3,4]`. -/
theorem c1_scale_pipeline :
    recognizePatterns c1notes =
      [⟨0, 7, PatternType.SCALE, 23/25,
        { emptyFeatures with
            direction := some Direction.ascending
            scaleType := some ScaleKind.major }⟩] ∧
    (planFingering Difficulty.intermediate c1notes
        (recognizePatterns c1notes)).fingering = [1, 2, 3, 4, 1, 2, 3, 4] := by
  constructor
  · with_unfolding_all decide
  · with_unfolding_all decide

/-- C4 (code bug): the planner's pattern-context lookup first compares
the note's `measureNumber` against the segments' note-index bounds.
With segments `[0..1] SCALE` and `[2..5] ARPEGGIO` and a note at index 3
whose measure number is 1, the source returns SCALE, whereas the claimed
(and spec-intended) by-index lookup yields the ARPEGGIO segment that
contains index 3. -/
theorem c4_measure_lookup_bug :
    getPatternContext c4notes 3 c4patterns = PatternType.SCALE ∧
    (c4patterns.find? (fun p =>
        decide (p.startIndex ≤ 3) && decide (3 ≤ p.endIndex))).map
      (fun p => p.patternType) = some PatternType.ARPEGGIO ∧
    PatternType.SCALE ≠ PatternType.ARPEGGIO := by
  refine ⟨?_, ?_, ?_⟩ <;> with_unfolding_all decide

/-- C3, counterexample: on the 12-note right-hand stream
`[60,62,64,65,67,69,71,72,72,72,60,72]` post-processing returns two
segments `[0,7]` and `[4,11]` that overlap on indices 4..7, refuting
the claimed no-overlap invariant. -/
theorem c3_overlap_counterexample :
    (recognizeHandPatterns c3notes Hand.RH).map
        (fun s => (s.startIndex, s.endIndex)) = [(0, 7), (4, 11)] ∧
    ((recognizeHandPatterns c3notes Hand.RH).getD 0 dfltSeg).startIndex ≤ 4 ∧
    4 ≤ ((recognizeHandPatterns c3notes Hand.RH).getD 0 dfltSeg).endIndex ∧
    ((recognizeHandPatterns c3notes Hand.RH).getD 1 dfltSeg).startIndex ≤ 4 ∧
    4 ≤ ((recognizeHandPatterns c3notes Hand.RH).getD 1 dfltSeg).endIndex ∧
    (recognizeHandPatterns c3notes Hand.RH).getD 0 dfltSeg ≠
      (recognizeHandPatterns c3notes Hand.RH).getD 1 dfltSeg := by
  refine ⟨?_, ?_, ?_, ?_, ?_, ?_⟩ <;> with_unfolding_all decide

/-- C6, counterexample: the window `[60,70,60,70,68,67,66,65]` reaches
the LEAP test (every higher-priority detector fails), its maximum
absolute interval is 10 > 4 and it has 3 direction changes, which
exceeds 0.4 times its 7 intervals — yet the source classifies it
UNKNOWN, because the code compares against 0.4 times the note count 8
(3 > 3.2 fails), not 0.4 times the interval count. -/
theorem c6_threshold_counterexample :
    detectOrnamented c6notes (extractFeatures c6notes) = none ∧
    detectAlberti c6notes (extractFeatures c6notes) = none ∧
    detectOstinato c6notes (extractFeatures c6notes) = none ∧
    detectPolyphonic c6notes (extractFeatures c6notes) = none ∧
    ¬ (2 ≤ (extractFeatures c6notes).avgSimultaneity ∨
        3 ≤ (extractFeatures c6notes).maxSimultaneity) ∧
    ¬ (4/5 ≤ (extractFeatures c6notes).stepwiseFrac ∧
        determineDirection (extractFeatures c6notes) ≠ Direction.mixed) ∧
    ¬ (1/2 ≤ (extractFeatures c6notes).leapFrac ∧
        belongsToChord (extractFeatures c6notes).pitches = true) ∧
    ¬ ((extractFeatures c6notes).pitchEntropyLtHalf = true ∧
        (detectRepeated c6notes (extractFeatures c6notes)).isSome = true) ∧
    4 < (extractFeatures c6notes).maxInterval ∧
    ((c6notes.length - 1 : Nat) : Rat) * (2/5) <
      ((extractFeatures c6notes).directionChanges : Rat) ∧
    (classifyPattern c6notes (extractFeatures c6notes)).type ≠
      PatternType.LEAP := by
  refine ⟨?_, ?_, ?_, ?_, ?_, ?_, ?_, ?_, ?_, ?_, ?_⟩ <;>
    with_unfolding_all decide

/-- C7, counterexample: with a running segment of exactly 3 notes
(indices 0..2, span 2) and a next segment of a different pattern type,
the source merges (the code merges whenever `endIndex - startIndex < 3`,
i.e. on segments of up to 3 notes), while the claim "merge only when
sharing a type or containing fewer than 3 notes" predicts no merge. -/
theorem c7_three_note_counterexample :
    postProcess [c7seg0, c7seg1] =
      [⟨0, 5, PatternType.SCALE, 92/100, emptyFeatures⟩] ∧
    c7seg0.patternType ≠ c7seg1.patternType ∧
    c7seg0.endIndex - c7seg0.startIndex + 1 = 3 := by
  refine ⟨?_, ?_, ?_⟩ <;> with_unfolding_all decide

/-- C7 (corrected): during post-processing's left-to-right walk the
running segment is merged with the next exactly when the two share a
patternType or the running segment's index span `endIndex - startIndex`
is below 3 (i.e. it holds fewer than 4 notes, not fewer than 3); the
merged segment keeps the running segment's startIndex and features,
takes the next segment's endIndex, and its confidence is the maximum of
the two confidences. -/
theorem c7_merge_rule (s0 s1 : PatternSegment) (rest : List PatternSegment) :
    postProcessGo s0 (s1 :: rest) =
      (if s0.patternType = s1.patternType ∨ s0.endIndex - s0.startIndex < 3
       then postProcessGo
         ⟨s0.startIndex, s1.endIndex, s0.patternType,
           max s0.confidence s1.confidence, s0.features⟩ rest
       else s0 :: postProcessGo s1 rest) ∧
    postProcess [s0, s1] =
      (if s0.patternType = s1.patternType ∨ s0.endIndex - s0.startIndex < 3
       then [⟨s0.startIndex, s1.endIndex, s0.patternType,
         max s0.confidence s1.confidence, s0.features⟩]
       else [s0, s1]) := by
  have key : ∀ (a b : PatternSegment) (r : List PatternSegment),
      postProcessGo a (b :: r) =
        if a.patternType = b.patternType ∨ a.endIndex - a.startIndex < 3
        then postProcessGo
          ⟨a.startIndex, b.endIndex, a.patternType,
            max a.confidence b.confidence, a.features⟩ r
        else a :: postProcessGo b r := by
    intro a b r
    have hc : ((decide (a.patternType = b.patternType) ||
        decide (a.endIndex - a.startIndex < 3)) = true) ↔
        (a.patternType = b.patternType ∨ a.endIndex - a.startIndex < 3) := by
      simp
    simp only [postProcessGo]
    by_cases h : a.patternType = b.patternType ∨ a.endIndex - a.startIndex < 3
    · rw [if_pos (hc.mpr h), if_pos h]
    · rw [if_neg (fun hh => h (hc.mp hh)), if_neg h]
  refine ⟨key s0 s1 rest, ?_⟩
  show postProcessGo s0 [s1] = _
  rw [key s0 s1 []]
  by_cases h : s0.patternType = s1.patternType ∨
      s0.endIndex - s0.startIndex < 3
  · rw [if_pos h, if_pos h]
    rfl
  · rw [if_neg h, if_neg h]
    rfl

end PianoFingering
namespace PianoFingering

/-! ### List helpers -/

theorem getD_default_or_mem {α : Type} (l : List α) (d : α) (k : Nat) :
    l.getD k d = d ∨ l.getD k d ∈ l := by
  induction l generalizing k with
  | nil => left; rfl
  | cons x xs ih =>
    cases k with
    | zero => right; exact List.mem_cons_self x xs
    | succ n =>
      rcases ih n with h | h
      · left
        simpa using h
      · right
        simp only [List.getD_cons_succ]
        exact List.mem_cons_of_mem x h

theorem fingersL_finger_ok {f : Nat} (h : f ∈ fingersL) : FingerOK f := by
  simp only [fingersL, List.mem_cons, List.mem_singleton] at h
  rcases h with rfl | rfl | rfl | rfl | rfl | h
  · exact ⟨by omega, by omega⟩
  · exact ⟨by omega, by omega⟩
  · exact ⟨by omega, by omega⟩
  · exact ⟨by omega, by omega⟩
  · exact ⟨by omega, by omega⟩
  · cases h

/-! ### DP structural lemmas -/

theorem backtrackFrom_length (layers : Nat → List (Option DPState)) :
    ∀ i f, (backtrackFrom layers i f).length = i + 1 := by
  intro i
  induction i with
  | zero => intro f; rfl
  | succ n ih =>
    intro f
    simp only [backtrackFrom, List.length_append, ih, List.length_singleton]

/-- Each accumulator step of the inner scan either keeps the
accumulator or installs the scanned predecessor as parent. -/
theorem transAccum_cases (prev : List (Option DPState))
    (tc : Nat → Nat → Rat) (toF acc g) :
    transAccum prev tc toF acc g = acc ∨
    ∃ c : Rat, transAccum prev tc toF acc g = some ⟨c, some g⟩ := by
  simp only [transAccum]
  cases layerGet prev g with
  | none => exact Or.inl rfl
  | some ps =>
    dsimp only
    by_cases hc : (500 : Rat) < tc g toF
    · rw [if_pos hc]
      exact Or.inl rfl
    · rw [if_neg hc]
      cases acc with
      | none => exact Or.inr ⟨_, rfl⟩
      | some b =>
        dsimp only
        by_cases hlt : ps.cost + tc g toF < b.cost
        · rw [if_pos hlt]
          exact Or.inr ⟨_, rfl⟩
        · rw [if_neg hlt]
          exact Or.inl rfl

theorem transFold_parent (prev : List (Option DPState))
    (tc : Nat → Nat → Rat) (toF : Nat) :
    ∀ (l : List Nat) (acc : Option DPState) (st : DPState),
      List.foldl (transAccum prev tc toF) acc l = some st →
      acc = some st ∨ ∃ g, g ∈ l ∧ st.parent = some g := by
  intro l
  induction l with
  | nil =>
    intro acc st h
    exact Or.inl h
  | cons g t ih =>
    intro acc st h
    rcases ih (transAccum prev tc toF acc g) st h with h1 | ⟨g', hg', hp⟩
    · rcases transAccum_cases prev tc toF acc g with h2 | ⟨c, h2⟩
      · rw [h2] at h1
        exact Or.inl h1
      · rw [h2] at h1
        right
        refine ⟨g, List.mem_cons_self g t, ?_⟩
        cases h1
        rfl
    · exact Or.inr ⟨g', List.mem_cons_of_mem g hg', hp⟩

/-- Any state in the inner-scan result names a predecessor in `1..5`. -/
theorem transStep_parent (prev : List (Option DPState))
    (tc : Nat → Nat → Rat) (toF : Nat) (st : DPState)
    (h : transStep prev tc toF = some st) :
    ∃ g, g ∈ fingersL ∧ st.parent = some g := by
  rcases transFold_parent prev tc toF fingersL none st h with h1 | h2
  · cases h1
  · exact h2

/-- Every state stored in any DP layer has no parent (layer 0) or a
parent finger in `1..5`. -/
theorem dpLayersW_parent (level : Difficulty) (notes : List Note)
    (ctx : Nat → PatternType) (hand : Hand) :
    ∀ i f st, layerGet (dpLayersW level notes ctx hand i) f = some st →
      st.parent = none ∨ ∃ g, g ∈ fingersL ∧ st.parent = some g := by
  intro i
  cases i with
  | zero =>
    intro f st h
    left
    unfold layerGet at h
    rcases getD_default_or_mem (dpLayersW level notes ctx hand 0) none (f - 1) with
      hd | hm
    · rw [h] at hd
      cases hd
    · rw [h] at hm
      simp only [dpLayersW, dpLayersGen, dpInitW, List.mem_map] at hm
      rcases hm with ⟨f0, _, hf0⟩
      cases hf0
      rfl
  | succ n =>
    intro f st h
    right
    unfold layerGet at h
    rcases getD_default_or_mem (dpLayersW level notes ctx hand (n + 1)) none (f - 1) with
      hd | hm
    · rw [h] at hd
      cases hd
    · rw [h] at hm
      simp only [dpLayersW, dpLayersGen, dpStep, List.mem_map] at hm
      rcases hm with ⟨f0, _, hf0⟩
      exact transStep_parent _ _ _ st hf0

theorem chooseFinal_fst (lastLayer : List (Option DPState)) :
    (chooseFinalState lastLayer).1 = 3 ∨ (chooseFinalState lastLayer).1 ∈ fingersL := by
  unfold chooseFinalState
  have : ∀ (l : List Nat) (acc : Nat × Option Rat),
      (List.foldl (chooseAccum lastLayer) acc l).1 = acc.1 ∨
      (List.foldl (chooseAccum lastLayer) acc l).1 ∈ l := by
    intro l
    induction l with
    | nil => intro acc; exact Or.inl rfl
    | cons g t ih =>
      intro acc
      simp only [List.foldl_cons]
      rcases ih (chooseAccum lastLayer acc g) with h | h
      · rw [h]
        unfold chooseAccum
        cases hL : layerGet lastLayer g with
        | none => exact Or.inl rfl
        | some st =>
          dsimp only
          cases hacc : acc.2 with
          | none => exact Or.inr (List.mem_cons_self g t)
          | some c =>
            dsimp only
            by_cases hlt : st.cost < c
            · rw [if_pos hlt]
              exact Or.inr (List.mem_cons_self g t)
            · rw [if_neg hlt]
              exact Or.inl rfl
      · exact Or.inr (List.mem_cons_of_mem g h)
  rcases this fingersL (3, none) with h | h
  · exact Or.inl h
  · exact Or.inr h

/-- Every finger emitted by the backward walk is legal, provided the
starting finger is and every layer's parents are. -/
theorem backtrackFrom_mem (layers : Nat → List (Option DPState))
    (hpar : ∀ i f st, layerGet (layers i) f = some st →
      st.parent = none ∨ ∃ g, g ∈ fingersL ∧ st.parent = some g) :
    ∀ i f, FingerOK f → ∀ x ∈ backtrackFrom layers i f, FingerOK x := by
  intro i
  induction i with
  | zero =>
    intro f hf x hx
    simp only [backtrackFrom, List.mem_singleton] at hx
    rwa [hx]
  | succ n ih =>
    intro f hf x hx
    simp only [backtrackFrom, List.mem_append, List.mem_singleton] at hx
    rcases hx with hx | rfl
    · -- x in the recursive prefix: show the previous finger is legal
      have hprev : FingerOK
          (match layerGet (layers (n + 1)) f with
            | some s => s.parent.getD f
            | none => f) := by
        cases hL : layerGet (layers (n + 1)) f with
        | none => exact hf
        | some s =>
          rcases hpar (n + 1) f s hL with hp | ⟨g, hg, hp⟩
          · simp only [hp, Option.getD_none]
            exact hf
          · simp only [hp, Option.getD_some]
            exact fingersL_finger_ok hg
      exact ih _ hprev x hx
    · exact hf

end PianoFingering
namespace PianoFingering

/-! ### Solution shape lemmas -/

theorem dpOptimizationWith_length (level : Difficulty) (notes : List Note)
    (ctx : Nat → PatternType) (hand : Hand) :
    (dpOptimizationWith level notes ctx hand).fingering.length = notes.length := by
  unfold dpOptimizationWith
  by_cases h : notes.length = 0
  · rw [if_pos h, h]
    rfl
  · rw [if_neg h]
    dsimp only
    rw [backtrackFrom_length]
    omega

theorem dpOptimizationWith_mem (level : Difficulty) (notes : List Note)
    (ctx : Nat → PatternType) (hand : Hand) :
    ∀ x ∈ (dpOptimizationWith level notes ctx hand).fingering, FingerOK x := by
  unfold dpOptimizationWith
  by_cases h : notes.length = 0
  · rw [if_pos h]
    intro x hx
    cases hx
  · rw [if_neg h]
    dsimp only
    intro x hx
    refine backtrackFrom_mem (dpLayersW level notes ctx hand)
      (dpLayersW_parent level notes ctx hand) _ _ ?_ x hx
    rcases chooseFinal_fst
        (dpLayersW level notes ctx hand (notes.length - 1)) with h3 | hmem
    · rw [h3]
      exact ⟨by omega, by omega⟩
    · exact fingersL_finger_ok hmem

theorem dpOptimization_length (level : Difficulty) (notes : List Note)
    (patterns : List PatternSegment) (hand : Hand) :
    (dpOptimization level notes patterns hand).fingering.length = notes.length :=
  dpOptimizationWith_length level notes _ hand

theorem dpOptimization_mem (level : Difficulty) (notes : List Note)
    (patterns : List PatternSegment) (hand : Hand) :
    ∀ x ∈ (dpOptimization level notes patterns hand).fingering, FingerOK x :=
  dpOptimizationWith_mem level notes _ hand

/-! ### Chunk arithmetic -/

theorem chunkStartsGo_stop (fuel n i : Nat) (h : ¬ i < n) :
    chunkStartsGo fuel n i = [] := by
  cases fuel with
  | zero => rfl
  | succ m =>
    unfold chunkStartsGo
    rw [if_neg h]

theorem chunkLen (notes : List Note) (j : Nat) :
    (listSlice notes j (min (j + 32) notes.length)).length =
      min (j + 32) notes.length - j := by
  unfold listSlice
  rw [List.length_take, List.length_drop]
  have h1 : min (j + 32) notes.length ≤ notes.length := min_le_right _ _
  omega

theorem chunkSum : ∀ (fuel n i : Nat), n - i ≤ 28 * fuel →
    ((chunkStartsGo fuel n i).map (fun j => min (j + 32) n - j - 4)).sum =
      n - i - 4 := by
  intro fuel
  induction fuel with
  | zero =>
    intro n i h
    rw [chunkStartsGo_stop 0 n i (by omega)]
    simp only [List.map_nil, List.sum_nil]
    omega
  | succ m ih =>
    intro n i h
    by_cases hin : i < n
    · unfold chunkStartsGo
      rw [if_pos hin, List.map_cons, List.sum_cons]
      by_cases h28 : i + 28 < n
      · rw [ih n (i + 28) (by omega)]
        by_cases h32 : i + 32 ≤ n
        · rw [Nat.min_eq_left h32]
          omega
        · rw [Nat.min_eq_right (by omega)]
          omega
      · rw [chunkStartsGo_stop m n (i + 28) (by omega)]
        simp only [List.map_nil, List.sum_nil]
        rw [Nat.min_eq_right (by omega)]
        omega
    · rw [chunkStartsGo_stop (m + 1) n i hin]
      simp only [List.map_nil, List.sum_nil]
      omega

theorem chunkStarts_split (n : Nat) (h : 0 < n) :
    chunkStarts n = 0 :: chunkStartsGo (n - 1) n 28 := by
  unfold chunkStarts
  cases n with
  | zero => omega
  | succ m =>
    unfold chunkStartsGo
    rw [if_pos (by omega)]
    norm_num
    cases m <;> rfl

theorem chunkedOptimization_length (level : Difficulty) (notes : List Note)
    (patterns : List PatternSegment) (hand : Hand) (h : 64 < notes.length) :
    (chunkedOptimization level notes patterns hand).fingering.length =
      notes.length := by
  unfold chunkedOptimization
  rw [chunkStarts_split notes.length (by omega)]
  dsimp only [List.map_cons]
  rw [List.length_append, List.length_join]
  rw [dpOptimization_length]
  rw [chunkLen]
  have hmaps :
      (((chunkStartsGo (notes.length - 1) notes.length 28).map
          (fun i => listSlice notes i (min (i + 32) notes.length))).map
        (fun c => dpOptimization level c patterns hand)).map
          (fun s => s.fingering.drop 4) =
      (chunkStartsGo (notes.length - 1) notes.length 28).map
        (fun j => ((dpOptimization level
          (listSlice notes j (min (j + 32) notes.length)) patterns
            hand).fingering.drop 4)) := by
    rw [List.map_map, List.map_map]
    rfl
  rw [hmaps, List.map_map]
  have hlens :
      ((chunkStartsGo (notes.length - 1) notes.length 28).map
        (List.length ∘ fun j => ((dpOptimization level
          (listSlice notes j (min (j + 32) notes.length)) patterns
            hand).fingering.drop 4))).sum =
      ((chunkStartsGo (notes.length - 1) notes.length 28).map
        (fun j => min (j + 32) notes.length - j - 4)).sum := by
    have hfun : (List.length ∘ fun j => ((dpOptimization level
          (listSlice notes j (min (j + 32) notes.length)) patterns
            hand).fingering.drop 4)) =
        fun j => min (j + 32) notes.length - j - 4 := by
      funext j
      simp only [Function.comp_apply, List.length_drop]
      rw [dpOptimization_length, chunkLen]
    rw [hfun]
  rw [hlens, chunkSum (notes.length - 1) notes.length 28 (by omega)]
  have : min 32 notes.length = 32 := Nat.min_eq_left (by omega)
  omega

theorem chunkedOptimization_mem (level : Difficulty) (notes : List Note)
    (patterns : List PatternSegment) (hand : Hand) :
    ∀ x ∈ (chunkedOptimization level notes patterns hand).fingering,
      FingerOK x := by
  unfold chunkedOptimization
  dsimp only
  intro x hx
  cases hc : (chunkStarts notes.length).map
      (fun i => listSlice notes i (min (i + 32) notes.length)) with
  | nil =>
    rw [hc] at hx
    cases hx
  | cons c cs =>
    rw [hc] at hx
    simp only [List.map_cons] at hx
    rcases List.mem_append.mp hx with hx1 | hx2
    · exact dpOptimization_mem level c patterns hand x hx1
    · rcases List.mem_join.mp hx2 with ⟨l, hl, hxl⟩
      simp only [List.map_map, List.mem_map] at hl
      rcases hl with ⟨c', _, rfl⟩
      have hsub : x ∈ (dpOptimization level c' patterns hand).fingering :=
        List.drop_subset _ _ hxl
      exact dpOptimization_mem level c' patterns hand x hsub

theorem planHandFingering_length (level : Difficulty) (notes : List Note)
    (patterns : List PatternSegment) (hand : Hand) :
    (planHandFingering level notes patterns hand).fingering.length =
      notes.length := by
  unfold planHandFingering
  by_cases h0 : notes.length = 0
  · rw [if_pos h0, h0]
    rfl
  · rw [if_neg h0]
    by_cases h64 : 64 < notes.length
    · rw [if_pos h64]
      exact chunkedOptimization_length level notes patterns hand h64
    · rw [if_neg h64]
      exact dpOptimization_length level notes patterns hand

theorem planHandFingering_mem (level : Difficulty) (notes : List Note)
    (patterns : List PatternSegment) (hand : Hand) :
    ∀ x ∈ (planHandFingering level notes patterns hand).fingering,
      FingerOK x := by
  unfold planHandFingering
  by_cases h0 : notes.length = 0
  · rw [if_pos h0]
    intro x hx
    cases hx
  · rw [if_neg h0]
    by_cases h64 : 64 < notes.length
    · rw [if_pos h64]
      exact chunkedOptimization_mem level notes patterns hand
    · rw [if_neg h64]
      exact dpOptimization_mem level notes patterns hand

/-! ### Merge lemmas -/

theorem mergeGo_length (rhF lhF : List Nat) :
    ∀ (notes : List Note) (a b : Nat),
      (mergeGo rhF lhF notes a b).length = notes.length := by
  intro notes
  induction notes with
  | nil =>
    intro a b
    rfl
  | cons nt rest ih =>
    intro a b
    cases hh : nt.hand <;> simp [mergeGo, hh, ih]

theorem mergeGo_mem (rhF lhF : List Nat)
    (hr : ∀ x ∈ rhF, FingerOK x) (hl : ∀ x ∈ lhF, FingerOK x) :
    ∀ (notes : List Note) (a b : Nat),
      ∀ x ∈ mergeGo rhF lhF notes a b, FingerOK x := by
  intro notes
  induction notes with
  | nil =>
    intro a b x hx
    cases hx
  | cons nt rest ih =>
    intro a b x hx
    cases hh : nt.hand
    · simp only [mergeGo, hh] at hx
      rcases List.mem_cons.mp hx with rfl | hx
      · rcases getD_default_or_mem rhF 3 a with hd | hm
        · rw [hd]
          exact ⟨by omega, by omega⟩
        · exact hr _ hm
      · exact ih (a + 1) b x hx
    · simp only [mergeGo, hh] at hx
      rcases List.mem_cons.mp hx with rfl | hx
      · rcases getD_default_or_mem lhF 3 b with hd | hm
        · rw [hd]
          exact ⟨by omega, by omega⟩
        · exact hl _ hm
      · exact ih a (b + 1) x hx

theorem handRank_zero (notes : List Note) (h : Hand) : handRank notes h 0 = 0 := by
  unfold handRank
  simp

theorem handRank_cons (nt : Note) (rest : List Note) (h : Hand) (n : Nat) :
    handRank (nt :: rest) h (n + 1) =
      (if nt.hand = h then 1 else 0) + handRank rest h n := by
  unfold handRank
  rw [List.take_succ_cons, List.filter_cons]
  by_cases hh : nt.hand = h <;> simp [hh, Nat.add_comm]

theorem mergeGo_getD (rhF lhF : List Nat) :
    ∀ (notes : List Note) (a b i : Nat), i < notes.length →
      (mergeGo rhF lhF notes a b).getD i 0 =
        (if (notes.getD i defaultNote).hand = Hand.RH
         then rhF.getD (a + handRank notes Hand.RH i) 3
         else lhF.getD (b + handRank notes Hand.LH i) 3) := by
  intro notes
  induction notes with
  | nil =>
    intro a b i hi
    cases hi
  | cons nt rest ih =>
    intro a b i hi
    cases i with
    | zero =>
      cases hh : nt.hand
      · simp [mergeGo, hh, handRank_zero]
      · simp [mergeGo, hh, handRank_zero]
    | succ n =>
      have hn : n < rest.length := by
        simp only [List.length_cons] at hi
        omega
      cases hh : nt.hand
      · have hstep : mergeGo rhF lhF (nt :: rest) a b =
            rhF.getD a 3 :: mergeGo rhF lhF rest (a + 1) b := by
          simp [mergeGo, hh]
        rw [hstep, List.getD_cons_succ, ih (a + 1) b n hn, List.getD_cons_succ]
        rw [handRank_cons, handRank_cons]
        rw [if_pos hh]
        have h2 : (nt.hand = Hand.LH) = False := by
          simp [hh]
        rw [if_neg (by simp [hh] : ¬ nt.hand = Hand.LH)]
        by_cases ht : (rest.getD n defaultNote).hand = Hand.RH
        · rw [if_pos ht, if_pos ht]
          have : a + (1 + handRank rest Hand.RH n) =
              a + 1 + handRank rest Hand.RH n := by omega
          rw [this]
        · rw [if_neg ht, if_neg ht]
          rw [Nat.zero_add]
      · have hstep : mergeGo rhF lhF (nt :: rest) a b =
            lhF.getD b 3 :: mergeGo rhF lhF rest a (b + 1) := by
          simp [mergeGo, hh]
        rw [hstep, List.getD_cons_succ, ih a (b + 1) n hn, List.getD_cons_succ]
        rw [handRank_cons, handRank_cons]
        rw [if_neg (by simp [hh] : ¬ nt.hand = Hand.RH)]
        rw [if_pos hh]
        by_cases ht : (rest.getD n defaultNote).hand = Hand.RH
        · rw [if_pos ht, if_pos ht]
          rw [Nat.zero_add]
        · rw [if_neg ht, if_neg ht]
          have : b + (1 + handRank rest Hand.LH n) =
              b + 1 + handRank rest Hand.LH n := by omega
          rw [this]

theorem handRank_lt (notes : List Note) (h : Hand) :
    ∀ i, i < notes.length → (notes.getD i defaultNote).hand = h →
      handRank notes h i < (notes.filter (fun n => n.hand = h)).length := by
  induction notes with
  | nil =>
    intro i hi
    cases hi
  | cons nt rest ih =>
    intro i hi hh
    cases i with
    | zero =>
      rw [handRank_zero]
      simp only [List.getD_cons_zero] at hh
      rw [List.filter_cons, if_pos (by simp [hh])]
      simp
    | succ n =>
      have hn : n < rest.length := by
        simp only [List.length_cons] at hi
        omega
      simp only [List.getD_cons_succ] at hh
      rw [handRank_cons, List.filter_cons]
      by_cases hnt : nt.hand = h
      · rw [if_pos hnt, if_pos (by simp [hnt])]
        have := ih n hn hh
        simp only [List.length_cons]
        omega
      · rw [if_neg hnt, if_neg (by simp [hnt])]
        have := ih n hn hh
        omega

/-- C2 (confirmed): for every input stream and difficulty, the merged
fingering has the input's length, every entry is a finger in 1..5, and
the entry at each global index equals the hand-local solution's entry
at that note's per-hand position (which is in range for that hand's
solution) — including when a hand stream exceeds 64 notes and the
chunked path is taken. -/
theorem c2_merge_invariants (level : Difficulty) (notes : List Note)
    (patterns : List PatternSegment) :
    (planFingering level notes patterns).fingering.length = notes.length ∧
    (∀ x ∈ (planFingering level notes patterns).fingering, FingerOK x) ∧
    (∀ i, i < notes.length →
      ((notes.getD i defaultNote).hand = Hand.RH →
        handRank notes Hand.RH i <
          (planHandFingering level (notes.filter (fun n => n.hand = Hand.RH))
            patterns Hand.RH).fingering.length ∧
        (planFingering level notes patterns).fingering.getD i 0 =
          (planHandFingering level (notes.filter (fun n => n.hand = Hand.RH))
            patterns Hand.RH).fingering.getD (handRank notes Hand.RH i) 3) ∧
      ((notes.getD i defaultNote).hand = Hand.LH →
        handRank notes Hand.LH i <
          (planHandFingering level (notes.filter (fun n => n.hand = Hand.LH))
            patterns Hand.LH).fingering.length ∧
        (planFingering level notes patterns).fingering.getD i 0 =
          (planHandFingering level (notes.filter (fun n => n.hand = Hand.LH))
            patterns Hand.LH).fingering.getD (handRank notes Hand.LH i) 3)) := by
  by_cases h0 : notes.length = 0
  · have hnil : notes = [] := List.length_eq_zero.mp h0
    subst hnil
    refine ⟨rfl, ?_, ?_⟩
    · intro x hx
      simp [planFingering, emptySolution] at hx
    · intro i hi
      cases hi
  · have hplan : planFingering level notes patterns =
        ⟨mergeGo
            (planHandFingering level (notes.filter (fun n => n.hand = Hand.RH))
              patterns Hand.RH).fingering
            (planHandFingering level (notes.filter (fun n => n.hand = Hand.LH))
              patterns Hand.LH).fingering notes 0 0,
          optAdd
            (planHandFingering level (notes.filter (fun n => n.hand = Hand.RH))
              patterns Hand.RH).totalCost
            (planHandFingering level (notes.filter (fun n => n.hand = Hand.LH))
              patterns Hand.LH).totalCost⟩ := by
      unfold planFingering
      rw [if_neg h0]
    rw [hplan]
    refine ⟨mergeGo_length _ _ notes 0 0, ?_, ?_⟩
    · exact mergeGo_mem _ _
        (planHandFingering_mem level _ patterns Hand.RH)
        (planHandFingering_mem level _ patterns Hand.LH) notes 0 0
    · intro i hi
      constructor
      · intro hRH
        constructor
        · rw [planHandFingering_length]
          exact handRank_lt notes Hand.RH i hi hRH
        · rw [mergeGo_getD _ _ notes 0 0 i hi, if_pos hRH]
          simp
      · intro hLH
        constructor
        · rw [planHandFingering_length]
          exact handRank_lt notes Hand.LH i hi hLH
        · have hne : ¬ (notes.getD i defaultNote).hand = Hand.RH := by
            rw [hLH]
            intro hc
            cases hc
          rw [mergeGo_getD _ _ notes 0 0 i hi, if_neg hne]
          simp

/-- Witness for C2 at a concrete three-note two-hand stream. -/
theorem c2_merge_invariants_witness :
    (2 < c2wnotes.length) ∧
    ((planFingering Difficulty.intermediate c2wnotes []).fingering.length =
      c2wnotes.length ∧
    (∀ x ∈ (planFingering Difficulty.intermediate c2wnotes []).fingering,
      FingerOK x)) := by
  constructor
  · with_unfolding_all decide
  · refine ⟨(c2_merge_invariants Difficulty.intermediate c2wnotes []).1, ?_⟩
    exact (c2_merge_invariants Difficulty.intermediate c2wnotes []).2.1

end PianoFingering
namespace PianoFingering

/-! ### Rule bounds (for the totality of the planner) -/

theorem ruleSameFinger_of_ne (g f : Nat) (I : Int) (hne : g ≠ f) :
    ruleSameFinger g f I = 0 := by
  unfold ruleSameFinger
  rw [if_neg]
  rintro ⟨h1, -⟩
  exact hne h1.symm

theorem ruleRepeat_le (g f : Nat) (I : Int) (hne : g ≠ f) :
    ruleRepeat g f I ≤ 0 := by
  unfold ruleRepeat
  split_ifs with h1 h2
  · exact absurd h2.symm hne
  · norm_num
  · exact le_refl 0

theorem ruleProgression_le (cfg : DifficultyConfig) (g f : Nat) (I : Int)
    (hand : Hand) (pc : PatternType) (inS : Bool)
    (h0 : 0 ≤ cfg.thumbCrossingPenalty)
    (h80 : cfg.thumbCrossingPenalty ≤ 80) :
    ruleProgression cfg g f I hand pc inS ≤ 80 := by
  have hdiv : cfg.thumbCrossingPenalty / 3 ≤ cfg.thumbCrossingPenalty :=
    div_le_self h0 (by norm_num)
  unfold ruleProgression
  split_ifs <;> linarith

theorem ruleSpan_le (cfg : DifficultyConfig) (g f : Nat) (I : Int)
    (hspan : 1 ≤ getNaturalSpan g f)
    (hstretch : 0 ≤ cfg.stretchPenalty)
    (hcomb : (cfg.maxComfortableSpan - 1) * cfg.stretchPenalty ≤ 200) :
    ruleSpan cfg g f I ≤ 200 := by
  simp only [ruleSpan]
  split_ifs with h1 h2
  · exact le_refl 200
  · push_neg at h2
    have step1 : ((I.natAbs : Rat) - getNaturalSpan g f) * cfg.stretchPenalty ≤
        (cfg.maxComfortableSpan - getNaturalSpan g f) * cfg.stretchPenalty :=
      mul_le_mul_of_nonneg_right h2 hstretch
    have step2 : (cfg.maxComfortableSpan - getNaturalSpan g f) * cfg.stretchPenalty ≤
        (cfg.maxComfortableSpan - 1) * cfg.stretchPenalty :=
      mul_le_mul_of_nonneg_right (by linarith) hstretch
    linarith
  · norm_num

theorem getExpectedFinger_range (offset : Int) (hand : Hand) :
    1 ≤ getExpectedFinger offset hand ∧ getExpectedFinger offset hand ≤ 5 := by
  cases hand <;>
    (simp only [getExpectedFinger]; split_ifs <;> omega)

theorem rulePosition_le (c : Note) (f : Nat) (hand : Hand) (pos : HandPos)
    (inS : Bool) (hf : FingerOK f) :
    rulePosition c f hand pos inS ≤ 32 := by
  simp only [rulePosition]
  split_ifs with h1 h2
  · norm_num
  · have he := getExpectedFinger_range (c.pitch - pos.anchorPitch) hand
    have habs : ((f : Int) -
        (getExpectedFinger (c.pitch - pos.anchorPitch) hand : Int)).natAbs ≤ 4 := by
      rcases hf with ⟨hf1, hf5⟩
      omega
    have : (((f : Int) -
        (getExpectedFinger (c.pitch - pos.anchorPitch) hand : Int)).natAbs : Rat) ≤ 4 := by
      exact_mod_cast Nat.cast_le.mpr habs
    linarith
  · norm_num

theorem computeScaleCost_le (g f : Nat) (asc : Bool) (hand : Hand)
    (cfg : DifficultyConfig) (hne : g ≠ f) :
    computeScaleCost g f asc hand cfg ≤ 20 := by
  simp only [computeScaleCost]
  rw [if_neg (show ¬ f = g from fun h => hne h.symm)]
  split_ifs <;> norm_num

theorem ruleScale_le (cfg : DifficultyConfig) (g f : Nat) (I : Int)
    (hand : Hand) (pc : PatternType) (inS : Bool) (hne : g ≠ f) :
    ruleScale cfg g f I hand pc inS ≤ 20 := by
  unfold ruleScale
  split_ifs with h1
  · exact computeScaleCost_le g f _ hand cfg hne
  · norm_num

theorem ruleBlackKey_le (cfg : DifficultyConfig) (c : Note) (f : Nat) :
    ruleBlackKey cfg c f ≤ 35 := by
  unfold ruleBlackKey
  split_ifs <;> norm_num

theorem ruleDifficulty_le (level : Difficulty) (g f : Nat) (c : Note)
    (I : Int) :
    ruleDifficulty level (getDifficultyConfig level) g f c I ≤ 15 := by
  cases level with
  | beginner =>
    unfold ruleDifficulty getDifficultyConfig
    dsimp only
    by_cases h1 : f = 4
    · rw [if_pos h1,
        if_neg (show ¬ (f = 5 ∧ ¬ isBlackKey c.pitch = true) by
          rintro ⟨h5, -⟩
          omega)]
      split_ifs <;> norm_num
    · rw [if_neg h1]
      split_ifs <;> norm_num
  | intermediate =>
    unfold ruleDifficulty
    norm_num
  | advanced =>
    unfold ruleDifficulty
    split_ifs <;> norm_num

theorem ruleArpeggio_le (g f : Nat) (I : Int) (hand : Hand)
    (pc : PatternType) :
    ruleArpeggio g f I hand pc ≤ 0 := by
  unfold ruleArpeggio
  split_ifs <;> norm_num

theorem span_ge_one :
    ∀ g ∈ fingersL, ∀ f ∈ fingersL, g ≠ f → (1 : Rat) ≤ getNaturalSpan g f := by
  with_unfolding_all decide

theorem cfg_facts (level : Difficulty) :
    0 ≤ (getDifficultyConfig level).thumbCrossingPenalty ∧
    (getDifficultyConfig level).thumbCrossingPenalty ≤ 80 ∧
    0 ≤ (getDifficultyConfig level).stretchPenalty ∧
    ((getDifficultyConfig level).maxComfortableSpan - 1) *
      (getDifficultyConfig level).stretchPenalty ≤ 200 := by
  cases level <;> (unfold getDifficultyConfig; norm_num)

/-- Any transition between two distinct fingers costs at most 382,
in particular at most the prune bound 500. -/
theorem computeTransitionCost_le_500 (level : Difficulty) (p c : Note)
    (g f : Nat) (pc : PatternType) (hand : Hand) (pos : HandPos) (inS : Bool)
    (hg : g ∈ fingersL) (hf : f ∈ fingersL) (hne : g ≠ f) :
    computeTransitionCost level (getDifficultyConfig level) p g c f pc hand
      pos inS ≤ 500 := by
  obtain ⟨hc0, hc80, hcs, hcomb⟩ := cfg_facts level
  have b1 := ruleSameFinger_of_ne g f (c.pitch - p.pitch) hne
  have b2 := ruleRepeat_le g f (c.pitch - p.pitch) hne
  have b3 := ruleProgression_le (getDifficultyConfig level) g f
    (c.pitch - p.pitch) hand pc inS hc0 hc80
  have b4 := ruleSpan_le (getDifficultyConfig level) g f (c.pitch - p.pitch)
    (span_ge_one g hg f hf hne) hcs hcomb
  have b5 := rulePosition_le c f hand pos inS (fingersL_finger_ok hf)
  have b6 := ruleScale_le (getDifficultyConfig level) g f (c.pitch - p.pitch)
    hand pc inS hne
  have b7 := ruleBlackKey_le (getDifficultyConfig level) c f
  have b8 := ruleDifficulty_le level g f c (c.pitch - p.pitch)
  have b9 := ruleArpeggio_le g f (c.pitch - p.pitch) hand pc
  simp only [computeTransitionCost]
  linarith

end PianoFingering
namespace PianoFingering

/-! ### Layer totality -/

theorem transAccum_isSome_of (prev : List (Option DPState))
    (tc : Nat → Nat → Rat) (toF : Nat) (acc : Option DPState) (g : Nat)
    (hprev : (layerGet prev g).isSome) (hle : tc g toF ≤ 500) :
    (transAccum prev tc toF acc g).isSome := by
  simp only [transAccum]
  rcases Option.isSome_iff_exists.mp hprev with ⟨ps, hps⟩
  rw [hps]
  dsimp only
  rw [if_neg (show ¬ (500 : Rat) < tc g toF from not_lt.mpr hle)]
  cases acc with
  | none => rfl
  | some b =>
    dsimp only
    split_ifs <;> rfl

theorem transFold_isSome_mono (prev : List (Option DPState))
    (tc : Nat → Nat → Rat) (toF : Nat) :
    ∀ (l : List Nat) (acc : Option DPState), acc.isSome →
      (List.foldl (transAccum prev tc toF) acc l).isSome := by
  intro l
  induction l with
  | nil => intro acc h; exact h
  | cons g t ih =>
    intro acc h
    rw [List.foldl_cons]
    apply ih
    rcases transAccum_cases prev tc toF acc g with h2 | ⟨c, h2⟩
    · rw [h2]; exact h
    · rw [h2]; rfl

theorem transStep_isSome (prev : List (Option DPState))
    (tc : Nat → Nat → Rat) (toF g : Nat) (hg : g ∈ fingersL)
    (hprev : (layerGet prev g).isSome) (hle : tc g toF ≤ 500) :
    (transStep prev tc toF).isSome := by
  unfold transStep
  rcases List.append_of_mem hg with ⟨s, t, hst⟩
  rw [hst, List.foldl_append, List.foldl_cons]
  apply transFold_isSome_mono
  exact transAccum_isSome_of prev tc toF _ g hprev hle

theorem layerGet_map (φ : Nat → Option DPState) (f : Nat) (hf : f ∈ fingersL) :
    layerGet (fingersL.map φ) f = φ f := by
  simp only [fingersL, List.mem_cons, List.mem_singleton] at hf
  rcases hf with rfl | rfl | rfl | rfl | rfl | hf
  · rfl
  · rfl
  · rfl
  · rfl
  · rfl
  · cases hf

/-- Every DP layer keeps a state for every finger: layer 0 by
construction, later layers because some distinct predecessor always
passes the 500 prune bound. -/
theorem dpLayersW_isSome (level : Difficulty) (notes : List Note)
    (ctx : Nat → PatternType) (hand : Hand) :
    ∀ i f, f ∈ fingersL →
      (layerGet (dpLayersW level notes ctx hand i) f).isSome := by
  intro i
  induction i with
  | zero =>
    intro f hf
    show (layerGet (dpInitW level notes hand) f).isSome
    unfold dpInitW
    rw [layerGet_map _ f hf]
    rfl
  | succ n ih =>
    intro f hf
    show (layerGet (dpStep (dpLayersW level notes ctx hand n)
      (dpTransW level notes ctx hand (n + 1))) f).isSome
    unfold dpStep
    rw [layerGet_map _ f hf]
    have hg : (if f = 1 then 2 else 1) ∈ fingersL := by
      split_ifs <;> simp [fingersL]
    have hne : (if f = 1 then 2 else 1) ≠ f := by
      split_ifs with h1
      · rw [h1]; omega
      · omega
    refine transStep_isSome _ _ f (if f = 1 then 2 else 1) hg (ih _ hg) ?_
    show dpTransW level notes ctx hand (n + 1) (if f = 1 then 2 else 1) f ≤ 500
    unfold dpTransW dpTransCostW
    exact computeTransitionCost_le_500 level _ _ _ f _ hand _ _ hg hf hne

theorem chooseAccum_isSome_mono (lastLayer : List (Option DPState)) :
    ∀ (l : List Nat) (acc : Nat × Option Rat), acc.2.isSome →
      (List.foldl (chooseAccum lastLayer) acc l).2.isSome := by
  intro l
  induction l with
  | nil => intro acc h; exact h
  | cons g t ih =>
    intro acc h
    rw [List.foldl_cons]
    apply ih
    unfold chooseAccum
    cases hL : layerGet lastLayer g with
    | none => exact h
    | some st =>
      dsimp only
      cases hacc : acc.2 with
      | none => rfl
      | some c =>
        dsimp only
        split_ifs <;> simp [hacc]

theorem chooseAccum_hit (lastLayer : List (Option DPState))
    (acc : Nat × Option Rat) (f : Nat) (ps : DPState)
    (hps : layerGet lastLayer f = some ps) :
    (chooseAccum lastLayer acc f).2.isSome := by
  unfold chooseAccum
  rw [hps]
  dsimp only
  cases hacc : acc.2 with
  | none => rfl
  | some c =>
    dsimp only
    split_ifs <;> simp [hacc]

theorem chooseFinalState_isSome (lastLayer : List (Option DPState))
    (f : Nat) (hf : f ∈ fingersL) (h : (layerGet lastLayer f).isSome) :
    (chooseFinalState lastLayer).2.isSome := by
  rcases Option.isSome_iff_exists.mp h with ⟨ps, hps⟩
  unfold chooseFinalState
  rcases List.append_of_mem hf with ⟨s, t, hst⟩
  rw [hst, List.foldl_append, List.foldl_cons]
  apply chooseAccum_isSome_mono
  exact chooseAccum_hit lastLayer _ f ps hps

/-- C5 (confirmed): the planner is total.  For every note stream,
pattern list, hand and difficulty: (a) for every note index `i ≥ 1` and
every target finger `f` there is a predecessor finger `g ≠ f` whose
single-step transition cost is at most the prune bound 500, so (b)
every DP layer keeps a state for every finger `(i, f)`, and (c) the
final backward scan finds a finite minimum, so the finger-3 fallback is
never exercised. -/
theorem c5_planner_total (level : Difficulty) (notes : List Note)
    (patterns : List PatternSegment) (hand : Hand) :
    (∀ i f, 1 ≤ i → f ∈ fingersL →
      ∃ g, g ∈ fingersL ∧ g ≠ f ∧
        dpTransW level notes (fun j => getPatternContext notes j patterns)
          hand i g f ≤ 500) ∧
    (∀ i f, f ∈ fingersL →
      (layerGet (dpLayersW level notes
        (fun j => getPatternContext notes j patterns) hand i) f).isSome) ∧
    (chooseFinalState (dpLayersW level notes
      (fun j => getPatternContext notes j patterns) hand
        (notes.length - 1))).2.isSome := by
  refine ⟨?_, ?_, ?_⟩
  · intro i f _ hf
    have hg : (if f = 1 then 2 else 1) ∈ fingersL := by
      split_ifs <;> simp [fingersL]
    have hne : (if f = 1 then 2 else 1) ≠ f := by
      split_ifs with h1
      · rw [h1]; omega
      · omega
    refine ⟨(if f = 1 then 2 else 1), hg, hne, ?_⟩
    unfold dpTransW dpTransCostW
    exact computeTransitionCost_le_500 level _ _ _ f _ hand _ _ hg hf hne
  · exact dpLayersW_isSome level notes _ hand
  · exact chooseFinalState_isSome _ 1 (by simp [fingersL])
      (dpLayersW_isSome level notes _ hand (notes.length - 1) 1
        (by simp [fingersL]))

/-- Witness for C5 at a concrete stream, index and finger. -/
theorem c5_planner_total_witness :
    (∃ g, g ∈ fingersL ∧ g ≠ 1 ∧
      dpTransW Difficulty.beginner c1notes
        (fun j => getPatternContext c1notes j []) Hand.RH 1 g 1 ≤ 500) ∧
    (layerGet (dpLayersW Difficulty.beginner c1notes
      (fun j => getPatternContext c1notes j []) Hand.RH 7) 5).isSome ∧
    (chooseFinalState (dpLayersW Difficulty.beginner c1notes
      (fun j => getPatternContext c1notes j []) Hand.RH
        (c1notes.length - 1))).2.isSome := by
  refine ⟨?_, ?_, ?_⟩
  · exact (c5_planner_total Difficulty.beginner c1notes [] Hand.RH).1 1 1
      (by norm_num) (by simp [fingersL])
  · exact (c5_planner_total Difficulty.beginner c1notes [] Hand.RH).2.1 7 5
      (by simp [fingersL])
  · exact (c5_planner_total Difficulty.beginner c1notes [] Hand.RH).2.2

end PianoFingering
namespace PianoFingering

/-! ### Tie-breaking: the scans keep the first argmin -/

theorem transAccum_merge (prev : List (Option DPState))
    (tc : Nat → Nat → Rat) (toF : Nat) (acc : Option DPState) (g : Nat) :
    transAccum prev tc toF acc g =
      mergeStep acc ((candCost prev tc toF g).map (fun c => (g, c))) := by
  unfold transAccum candCost
  cases hL : layerGet prev g with
  | none => rfl
  | some ps =>
    dsimp only
    by_cases hc : (500 : Rat) < tc g toF
    · rw [if_pos hc, if_pos hc]
      rfl
    · rw [if_neg hc, if_neg hc]
      cases acc with
      | none => rfl
      | some b => rfl

theorem mergeStep_some (b : DPState) (gc : Nat × Rat) :
    mergeStep (some b) (some gc) =
      if gc.2 < b.cost then some ⟨gc.2, some gc.1⟩ else some b := rfl

theorem mergeStep_assoc (acc : Option DPState) (g : Nat) (co : Option Rat)
    (r : Option (Nat × Rat)) :
    mergeStep (mergeStep acc (co.map (fun c => (g, c)))) r =
      mergeStep acc
        (match co, r with
         | none, r => r
         | some c, none => some (g, c)
         | some c, some gc => if c ≤ gc.2 then some (g, c) else some gc) := by
  cases co with
  | none => rfl
  | some c =>
    cases r with
    | none =>
      cases acc with
      | none => rfl
      | some b => rfl
    | some gc =>
      cases acc with
      | none =>
        show mergeStep (some ⟨c, some g⟩) (some gc) =
          mergeStep none (if c ≤ gc.2 then some (g, c) else some gc)
        rw [mergeStep_some]
        by_cases h2 : c ≤ gc.2
        · rw [if_neg (not_lt.mpr h2), if_pos h2]
          rfl
        · rw [if_pos (not_le.mp h2), if_neg h2]
          rfl
      | some b =>
        show mergeStep (if c < b.cost then some ⟨c, some g⟩ else some b)
            (some gc) =
          mergeStep (some b) (if c ≤ gc.2 then some (g, c) else some gc)
        by_cases h1 : c < b.cost
        · rw [if_pos h1, mergeStep_some]
          by_cases h2 : c ≤ gc.2
          · rw [if_neg (not_lt.mpr h2), if_pos h2, mergeStep_some, if_pos h1]
          · have hgc : gc.2 < c := not_le.mp h2
            rw [if_pos hgc, if_neg h2, mergeStep_some,
              if_pos (lt_trans hgc h1)]
        · rw [if_neg h1, mergeStep_some]
          by_cases h2 : c ≤ gc.2
          · have hnb : ¬ gc.2 < b.cost :=
              not_lt.mpr (le_trans (not_lt.mp h1) h2)
            rw [if_neg hnb, if_pos h2, mergeStep_some, if_neg h1]
          · rw [if_neg h2, mergeStep_some]

theorem foldl_trans_merge (prev : List (Option DPState))
    (tc : Nat → Nat → Rat) (toF : Nat) :
    ∀ (l : List Nat) (acc : Option DPState),
      List.foldl (transAccum prev tc toF) acc l =
        mergeStep acc (pickFirstMin (candCost prev tc toF) l) := by
  intro l
  induction l with
  | nil => intro acc; rfl
  | cons g t ih =>
    intro acc
    rw [List.foldl_cons, ih, transAccum_merge]
    rw [mergeStep_assoc]
    rfl

theorem pickFirstMin_none_forall (cand : Nat → Option Rat) :
    ∀ l, pickFirstMin cand l = none → ∀ g ∈ l, cand g = none := by
  intro l
  induction l with
  | nil => intro _ g hg; cases hg
  | cons g0 t ih =>
    intro h g hg
    simp only [pickFirstMin] at h
    rcases List.mem_cons.mp hg with rfl | hgt
    · cases hc : cand g with
      | none => rfl
      | some c =>
        rw [hc] at h
        cases hp : pickFirstMin cand t with
        | none => rw [hp] at h; cases h
        | some gc =>
          rw [hp] at h
          dsimp only at h
          split_ifs at h <;> cases h
    · cases hc : cand g0 with
      | none =>
        rw [hc] at h
        exact ih h g hgt
      | some c =>
        rw [hc] at h
        cases hp : pickFirstMin cand t with
        | none => rw [hp] at h; cases h
        | some gc =>
          rw [hp] at h
          dsimp only at h
          split_ifs at h <;> cases h

theorem pickFirstMin_spec (cand : Nat → Option Rat) :
    ∀ (l : List Nat) (g : Nat) (cst : Rat),
      pickFirstMin cand l = some (g, cst) →
      g ∈ l ∧ cand g = some cst ∧
        ∀ g' ∈ l, ∀ c', cand g' = some c' → cst ≤ c' := by
  intro l
  induction l with
  | nil => intro g cst h; cases h
  | cons g0 t ih =>
    intro g cst h
    simp only [pickFirstMin] at h
    cases hc : cand g0 with
    | none =>
      rw [hc] at h
      obtain ⟨hmem, hcg, hmin⟩ := ih g cst h
      refine ⟨List.mem_cons_of_mem g0 hmem, hcg, ?_⟩
      intro g' hg' c' hc'
      rcases List.mem_cons.mp hg' with rfl | hgt
      · rw [hc] at hc'; cases hc'
      · exact hmin g' hgt c' hc'
    | some c =>
      rw [hc] at h
      cases hp : pickFirstMin cand t with
      | none =>
        rw [hp] at h
        dsimp only at h
        cases h
        refine ⟨List.mem_cons_self g0 t, hc, ?_⟩
        intro g' hg' c' hc'
        rcases List.mem_cons.mp hg' with rfl | hgt
        · rw [hc] at hc'
          cases hc'
          exact le_refl _
        · rw [pickFirstMin_none_forall cand t hp g' hgt] at hc'
          cases hc'
      | some gc =>
        rw [hp] at h
        dsimp only at h
        obtain ⟨hmem2, hcg2, hmin2⟩ := ih gc.1 gc.2 (by rw [hp])
        split_ifs at h with hle
        · cases h
          refine ⟨List.mem_cons_self g0 t, hc, ?_⟩
          intro g' hg' c' hc'
          rcases List.mem_cons.mp hg' with rfl | hgt
          · rw [hc] at hc'
            cases hc'
            exact le_refl _
          · exact le_trans hle (hmin2 g' hgt c' hc')
        · cases h
          refine ⟨List.mem_cons_of_mem g0 hmem2, hcg2, ?_⟩
          intro g' hg' c' hc'
          rcases List.mem_cons.mp hg' with rfl | hgt
          · rw [hc] at hc'
            cases hc'
            push_neg at hle
            exact le_of_lt hle
          · exact hmin2 g' hgt c' hc'

theorem pickFirstMin_first (cand : Nat → Option Rat) :
    ∀ (l : List Nat), l.Pairwise (· < ·) →
      ∀ (g : Nat) (cst : Rat), pickFirstMin cand l = some (g, cst) →
        ∀ g' ∈ l, cand g' = some cst → g ≤ g' := by
  intro l
  induction l with
  | nil => intro _ g cst h; cases h
  | cons g0 t ih =>
    intro hsort g cst h g' hg' hcg'
    have hsort_t : t.Pairwise (· < ·) := (List.pairwise_cons.mp hsort).2
    have hlt : ∀ x ∈ t, g0 < x := (List.pairwise_cons.mp hsort).1
    simp only [pickFirstMin] at h
    cases hc : cand g0 with
    | none =>
      rw [hc] at h
      rcases List.mem_cons.mp hg' with rfl | hgt
      · rw [hc] at hcg'; cases hcg'
      · exact ih hsort_t g cst h g' hgt hcg'
    | some c =>
      rw [hc] at h
      cases hp : pickFirstMin cand t with
      | none =>
        rw [hp] at h
        dsimp only at h
        cases h
        rcases List.mem_cons.mp hg' with rfl | hgt
        · exact le_refl _
        · exact le_of_lt (hlt g' hgt)
      | some gc =>
        rw [hp] at h
        dsimp only at h
        split_ifs at h with hle
        · cases h
          rcases List.mem_cons.mp hg' with rfl | hgt
          · exact le_refl _
          · exact le_of_lt (hlt g' hgt)
        · cases h
          rcases List.mem_cons.mp hg' with rfl | hgt
          · -- cand g0 = some cst but the winner's cost is strictly below c
            rw [hc] at hcg'
            cases hcg'
            push_neg at hle
            exact absurd hle (lt_irrefl _)
          · exact ih hsort_t g cst hp g' hgt hcg'

end PianoFingering
namespace PianoFingering

theorem mergeBest_some (acc : Nat × Option Rat) (gc : Nat × Rat) :
    mergeBest acc (some gc) =
      (match acc.2 with
       | none => (gc.1, some gc.2)
       | some cb => if gc.2 < cb then (gc.1, some gc.2) else acc) := rfl

theorem chooseAccum_merge (lastLayer : List (Option DPState))
    (acc : Nat × Option Rat) (f : Nat) :
    chooseAccum lastLayer acc f =
      mergeBest acc ((candFinal lastLayer f).map (fun c => (f, c))) := by
  unfold chooseAccum candFinal
  cases hL : layerGet lastLayer f with
  | none => rfl
  | some st =>
    dsimp only [Option.map_some']
    rw [mergeBest_some]

theorem mergeBest_assoc (acc : Nat × Option Rat) (g : Nat) (co : Option Rat)
    (r : Option (Nat × Rat)) :
    mergeBest (mergeBest acc (co.map (fun c => (g, c)))) r =
      mergeBest acc
        (match co, r with
         | none, r => r
         | some c, none => some (g, c)
         | some c, some gc => if c ≤ gc.2 then some (g, c) else some gc) := by
  cases co with
  | none => rfl
  | some c =>
    cases r with
    | none => rfl
    | some gc =>
      dsimp only [Option.map_some']
      rw [mergeBest_some acc (g, c)]
      cases hacc : acc.2 with
      | none =>
        dsimp only
        rw [mergeBest_some ((g, some c) : Nat × Option Rat) gc]
        dsimp only
        by_cases h2 : c ≤ gc.2
        · rw [if_neg (not_lt.mpr h2), if_pos h2, mergeBest_some, hacc]
        · rw [if_pos (not_le.mp h2), if_neg h2, mergeBest_some, hacc]
      | some cb =>
        dsimp only
        by_cases h1 : c < cb
        · rw [if_pos h1, mergeBest_some ((g, some c) : Nat × Option Rat) gc]
          dsimp only
          by_cases h2 : c ≤ gc.2
          · rw [if_neg (not_lt.mpr h2), if_pos h2, mergeBest_some, hacc]
            dsimp only
            rw [if_pos h1]
          · have hgc : gc.2 < c := not_le.mp h2
            rw [if_pos hgc, if_neg h2, mergeBest_some, hacc]
            dsimp only
            rw [if_pos (lt_trans hgc h1)]
        · rw [if_neg h1, mergeBest_some acc gc, hacc]
          dsimp only
          by_cases h2 : c ≤ gc.2
          · have hnb : ¬ gc.2 < cb := not_lt.mpr (le_trans (not_lt.mp h1) h2)
            rw [if_neg hnb, if_pos h2, mergeBest_some, hacc]
            dsimp only
            rw [if_neg h1]
          · rw [if_neg h2, mergeBest_some, hacc]

theorem foldl_choose_merge (lastLayer : List (Option DPState)) :
    ∀ (l : List Nat) (acc : Nat × Option Rat),
      List.foldl (chooseAccum lastLayer) acc l =
        mergeBest acc (pickFirstMin (candFinal lastLayer) l) := by
  intro l
  induction l with
  | nil => intro acc; rfl
  | cons g t ih =>
    intro acc
    rw [List.foldl_cons, ih, chooseAccum_merge]
    rw [mergeBest_assoc]
    rfl

theorem fingersL_pairwise : fingersL.Pairwise (· < ·) := by
  decide

/-- C8 (confirmed): the DP breaks ties deterministically.  (a) The
inner predecessor scan over `1..5` equals the spec's first-argmin
selection; (b) any produced state's parent is a candidate of minimal
cost, and among equal-cost candidates it is the lowest finger; (c) the
final scan picks the lowest finger among equal-cost winners (with
fallback `(3, Infinity)` when the layer is empty); (d) the planner is a
pure function, so identical inputs give identical outputs. -/
theorem c8_tie_breaking :
    (∀ (prev : List (Option DPState)) (tc : Nat → Nat → Rat) (toF : Nat),
      transStep prev tc toF =
        (match pickFirstMin (candCost prev tc toF) fingersL with
         | none => none
         | some gc => some ⟨gc.2, some gc.1⟩)) ∧
    (∀ (prev : List (Option DPState)) (tc : Nat → Nat → Rat)
        (toF : Nat) (st : DPState),
      transStep prev tc toF = some st →
      ∃ g, st.parent = some g ∧ g ∈ fingersL ∧
        candCost prev tc toF g = some st.cost ∧
        (∀ g' ∈ fingersL, ∀ c', candCost prev tc toF g' = some c' →
          st.cost ≤ c' ∧ (c' = st.cost → g ≤ g'))) ∧
    (∀ lastLayer : List (Option DPState),
      chooseFinalState lastLayer =
        (match pickFirstMin (candFinal lastLayer) fingersL with
         | none => (3, none)
         | some gc => (gc.1, some gc.2)) ∧
      ∀ (g : Nat) (cst : Rat),
        pickFirstMin (candFinal lastLayer) fingersL = some (g, cst) →
        (chooseFinalState lastLayer).1 = g ∧
        (∀ f ∈ fingersL, ∀ c', candFinal lastLayer f = some c' →
          cst ≤ c' ∧ (c' = cst → g ≤ f))) ∧
    (∀ (level : Difficulty) (n1 n2 : List Note)
        (p1 p2 : List PatternSegment),
      n1 = n2 → p1 = p2 →
      planFingering level n1 p1 = planFingering level n2 p2) := by
  have htrans : ∀ (prev : List (Option DPState)) (tc : Nat → Nat → Rat)
      (toF : Nat),
      transStep prev tc toF =
        (match pickFirstMin (candCost prev tc toF) fingersL with
         | none => none
         | some gc => some ⟨gc.2, some gc.1⟩) := by
    intro prev tc toF
    unfold transStep
    rw [foldl_trans_merge]
    cases pickFirstMin (candCost prev tc toF) fingersL with
    | none => rfl
    | some gc => rfl
  have hchoose : ∀ lastLayer : List (Option DPState),
      chooseFinalState lastLayer =
        (match pickFirstMin (candFinal lastLayer) fingersL with
         | none => (3, none)
         | some gc => (gc.1, some gc.2)) := by
    intro lastLayer
    unfold chooseFinalState
    rw [foldl_choose_merge]
    cases pickFirstMin (candFinal lastLayer) fingersL with
    | none => rfl
    | some gc => rfl
  refine ⟨htrans, ?_, ?_, ?_⟩
  · intro prev tc toF st h
    rw [htrans prev tc toF] at h
    cases hp : pickFirstMin (candCost prev tc toF) fingersL with
    | none =>
      rw [hp] at h
      cases h
    | some gc =>
      rw [hp] at h
      dsimp only at h
      cases h
      obtain ⟨hmem, hcand, hmin⟩ := pickFirstMin_spec _ fingersL gc.1 gc.2
        (by rw [hp])
      refine ⟨gc.1, rfl, hmem, hcand, ?_⟩
      intro g' hg' c' hc'
      refine ⟨hmin g' hg' c' hc', ?_⟩
      intro hceq
      exact pickFirstMin_first _ fingersL fingersL_pairwise gc.1 gc.2
        (by rw [hp]) g' hg' (by rw [hc', hceq])
  · intro lastLayer
    refine ⟨hchoose lastLayer, ?_⟩
    intro g cst hp
    obtain ⟨hmem, hcand, hmin⟩ := pickFirstMin_spec _ fingersL g cst hp
    constructor
    · rw [hchoose lastLayer, hp]
    · intro f hf c' hc'
      refine ⟨hmin f hf c' hc', ?_⟩
      intro hceq
      exact pickFirstMin_first _ fingersL fingersL_pairwise g cst hp f hf
        (by rw [hc', hceq])
  · intro level n1 n2 p1 p2 h1 h2
    rw [h1, h2]

/-- Witness for C8 at a concrete layer and transition function: the
scan picks predecessor 2 (cost 3 + transition 1 = 4), the unique and
lowest argmin. -/
theorem c8_tie_breaking_witness :
    ∃ g, (⟨4, some 2⟩ : DPState).parent = some g ∧ g ∈ fingersL ∧
      candCost c8wLayer c8wT 1 g = some (⟨4, some 2⟩ : DPState).cost ∧
      (∀ g' ∈ fingersL, ∀ c', candCost c8wLayer c8wT 1 g' = some c' →
        (⟨4, some 2⟩ : DPState).cost ≤ c' ∧
          (c' = (⟨4, some 2⟩ : DPState).cost → g ≤ g')) := by
  refine c8_tie_breaking.2.1 c8wLayer c8wT 1 ⟨4, some 2⟩ ?_
  with_unfolding_all decide

end PianoFingering
namespace PianoFingering

theorem chunkStartsGo_closed : ∀ (fuel n i : Nat), n ≤ i + 28 * fuel →
    chunkStartsGo fuel n i =
      (List.range ((n - i + 27) / 28)).map (fun k => i + 28 * k) := by
  intro fuel
  induction fuel with
  | zero =>
    intro n i h
    have h2 : (n - i + 27) / 28 = 0 := by omega
    rw [h2]
    rfl
  | succ m ih =>
    intro n i h
    unfold chunkStartsGo
    by_cases hin : i < n
    · rw [if_pos hin, ih n (i + 28) (by omega)]
      have hm : (n - i + 27) / 28 = (n - (i + 28) + 27) / 28 + 1 := by omega
      rw [hm, List.range_succ_eq_map, List.map_cons, List.map_map]
      refine congrArg₂ List.cons (by omega) ?_
      exact List.map_congr_left (fun a _ => by
        show i + 28 + 28 * a = i + 28 * (a + 1)
        omega)
    · rw [if_neg hin]
      have h2 : (n - i + 27) / 28 = 0 := by omega
      rw [h2]
      rfl

theorem chunkStarts_closed (n : Nat) :
    chunkStarts n = (List.range ((n + 27) / 28)).map (fun k => 28 * k) := by
  unfold chunkStarts
  rw [chunkStartsGo_closed n n 0 (by omega)]
  simp only [Nat.sub_zero]
  exact List.map_congr_left (fun a _ => by
    show 0 + 28 * a = 28 * a
    omega)

theorem chunkOverlap (notes : List Note) (j : Nat)
    (h : j + 28 < notes.length) :
    (listSlice notes (j + 28) (min (j + 28 + 32) notes.length)).take 4 =
      (listSlice notes j (min (j + 32) notes.length)).drop 28 := by
  unfold listSlice
  rw [List.take_take, List.drop_take, List.drop_drop]
  refine congrArg₂ List.take (by omega) (congrArg₂ List.drop (by omega) rfl)

/-- C10 (confirmed): on the long-stream path (more than 64 notes) the
planner runs `chunkedOptimization`: chunk starts are `0, 28, 56, …`
(every `chunkSize − overlapSize = 28` notes, as many as fit), each chunk
spans up to 32 notes; the output fingering is the first chunk's full
solution followed by each later chunk's solution with its first 4
(overlap) entries dropped; the reported total is the plain `foldl`-sum
of the chunk totals, with no correction for the 4-note overlaps, whose
notes are shared verbatim between consecutive chunks. -/
theorem c10_chunked (level : Difficulty) (notes : List Note)
    (patterns : List PatternSegment) (hand : Hand)
    (h : 64 < notes.length) :
    planHandFingering level notes patterns hand =
      chunkedOptimization level notes patterns hand ∧
    chunkStarts notes.length =
      (List.range ((notes.length + 27) / 28)).map (fun k => 28 * k) ∧
    (planHandFingering level notes patterns hand).fingering =
      (dpOptimization level (listSlice notes 0 (min 32 notes.length))
          patterns hand).fingering ++
        ((chunkStarts notes.length).tail.map (fun j =>
          (dpOptimization level
              (listSlice notes j (min (j + 32) notes.length)) patterns
              hand).fingering.drop 4)).join ∧
    (planHandFingering level notes patterns hand).totalCost =
      ((chunkStarts notes.length).map (fun j =>
        (dpOptimization level
            (listSlice notes j (min (j + 32) notes.length)) patterns
            hand).totalCost)).foldl optAdd (some 0) ∧
    ∀ k : Nat, 28 * k + 28 < notes.length →
      (listSlice notes (28 * k + 28)
          (min (28 * k + 28 + 32) notes.length)).take 4 =
        (listSlice notes (28 * k)
          (min (28 * k + 32) notes.length)).drop 28 := by
  have hplan : planHandFingering level notes patterns hand =
      chunkedOptimization level notes patterns hand := by
    unfold planHandFingering
    rw [if_neg (by omega), if_pos h]
  refine ⟨hplan, chunkStarts_closed notes.length, ?_, ?_, ?_⟩
  · rw [hplan]
    unfold chunkedOptimization
    rw [chunkStarts_split notes.length (by omega)]
    dsimp only [List.map_cons, List.tail_cons]
    rw [List.map_map, List.map_map]
    rw [Nat.zero_add]
    rfl
  · rw [hplan]
    unfold chunkedOptimization
    dsimp only
    rw [List.foldl_map, List.foldl_map, List.foldl_map]
  · intro k hk
    exact chunkOverlap notes (28 * k) (by omega)

/-- Witness for C10 at a concrete 70-note right-hand stream: the length
hypothesis holds and the planner takes the chunked path. -/
theorem c10_chunked_witness :
    64 < c10notes.length ∧
    planHandFingering Difficulty.intermediate c10notes [] Hand.RH =
      chunkedOptimization Difficulty.intermediate c10notes [] Hand.RH :=
  ⟨by decide, (c10_chunked Difficulty.intermediate c10notes [] Hand.RH
      (by decide)).1⟩

end PianoFingering
namespace PianoFingering

theorem listSlice_length (xs : List Note) (a b : Nat) :
    (listSlice xs a b).length = min (b - a) (xs.length - a) := by
  unfold listSlice
  rw [List.length_take, List.length_drop]

theorem adaptWindowSize_ge_two (notes : List Note) (i : Nat)
    (h : i + 2 ≤ notes.length) : 2 ≤ adaptWindowSize notes i := by
  simp only [adaptWindowSize]
  split_ifs <;> omega

theorem recognizeLoopGo_nil (notes : List Note) :
    ∀ (fuel i : Nat), notes.length ≤ i + 1 →
      recognizeLoopGo notes fuel i = [] := by
  intro fuel
  induction fuel with
  | zero => intro i h; rfl
  | succ m ih =>
    intro i h
    unfold recognizeLoopGo
    by_cases hin : i < notes.length
    · rw [if_pos hin]
      dsimp only
      have hlen : (listSlice notes i
          (min (i + adaptWindowSize notes i) notes.length)).length < 2 := by
        rw [listSlice_length]
        omega
      rw [if_pos hlen]
      exact ih (i + 1) (by omega)
    · rw [if_neg hin]

theorem recognizeLoopGo_main (notes : List Note) :
    ∀ (fuel i : Nat), notes.length ≤ i + fuel → i + 2 ≤ notes.length →
      ∃ s rest, recognizeLoopGo notes fuel i = s :: rest ∧
        s.startIndex = i ∧
        List.Chain' (fun a b => b.startIndex ≤ a.endIndex + 1) (s :: rest) ∧
        List.Chain' (fun a b => a.startIndex ≤ b.startIndex) (s :: rest) ∧
        (rest.getLastD s).endIndex = notes.length - 1 := by
  intro fuel
  induction fuel with
  | zero => intro i h1 h2; omega
  | succ m ih =>
    intro i h1 h2
    have hin : i < notes.length := by omega
    have hws : 2 ≤ adaptWindowSize notes i := adaptWindowSize_ge_two notes i h2
    unfold recognizeLoopGo
    rw [if_pos hin]
    dsimp only
    have hlen : ¬ (listSlice notes i
        (min (i + adaptWindowSize notes i) notes.length)).length < 2 := by
      rw [listSlice_length]
      omega
    rw [if_neg hlen]
    set ws := adaptWindowSize notes i with hwsdef
    by_cases hcont : i + max 1 (ws / 2) + 2 ≤ notes.length
    · obtain ⟨s', rest', heq, hstart', hlink', hsort', hlast'⟩ :=
        ih (i + max 1 (ws / 2)) (by omega) hcont
      rw [heq]
      refine ⟨_, _, rfl, rfl, ?_, ?_, ?_⟩
      · refine List.chain'_cons.mpr ⟨?_, hlink'⟩
        dsimp only
        omega
      · refine List.chain'_cons.mpr ⟨?_, hsort'⟩
        dsimp only
        omega
      · simp only [List.getLastD_cons]
        exact hlast'
    · have hnil : recognizeLoopGo notes m (i + max 1 (ws / 2)) = [] :=
        recognizeLoopGo_nil notes m _ (by omega)
      rw [hnil]
      refine ⟨_, _, rfl, rfl, List.chain'_singleton _,
        List.chain'_singleton _, ?_⟩
      dsimp only [List.getLastD]
      omega

theorem postProcessGo_cons (a b : PatternSegment) (r : List PatternSegment) :
    postProcessGo a (b :: r) =
      if a.patternType = b.patternType ∨ a.endIndex - a.startIndex < 3
      then postProcessGo
        ⟨a.startIndex, b.endIndex, a.patternType,
          max a.confidence b.confidence, a.features⟩ r
      else a :: postProcessGo b r := by
  have hc : ((decide (a.patternType = b.patternType) ||
      decide (a.endIndex - a.startIndex < 3)) = true) ↔
      (a.patternType = b.patternType ∨ a.endIndex - a.startIndex < 3) := by
    simp
  simp only [postProcessGo]
  by_cases h : a.patternType = b.patternType ∨ a.endIndex - a.startIndex < 3
  · rw [if_pos (hc.mpr h), if_pos h]
  · rw [if_neg (fun hh => h (hc.mp hh)), if_neg h]

theorem postProcessGo_props :
    ∀ (l : List PatternSegment) (cur : PatternSegment),
      List.Chain' (fun a b => b.startIndex ≤ a.endIndex + 1) (cur :: l) →
      List.Chain' (fun a b => a.startIndex ≤ b.startIndex) (cur :: l) →
      (∀ s ∈ postProcessGo cur l, cur.startIndex ≤ s.startIndex) ∧
      List.Chain' (fun a b => a.startIndex ≤ b.startIndex)
        (postProcessGo cur l) ∧
      ∀ j, cur.startIndex ≤ j → j ≤ (l.getLastD cur).endIndex →
        ∃ s ∈ postProcessGo cur l, s.startIndex ≤ j ∧ j ≤ s.endIndex := by
  intro l
  induction l with
  | nil =>
    intro cur _ _
    unfold postProcessGo
    refine ⟨?_, List.chain'_singleton _, ?_⟩
    · intro s hs
      cases hs with
      | head => exact le_refl _
      | tail _ h => cases h
    · intro j h1 h2
      exact ⟨cur, List.mem_singleton.mpr rfl, h1, h2⟩
  | cons next rest ih =>
    intro cur hlink hsort
    rw [List.chain'_cons] at hlink hsort
    obtain ⟨hl1, hl2⟩ := hlink
    obtain ⟨hs1, hs2⟩ := hsort
    rw [postProcessGo_cons]
    by_cases h : cur.patternType = next.patternType ∨
        cur.endIndex - cur.startIndex < 3
    · rw [if_pos h]
      have hlink' : List.Chain'
          (fun a b => b.startIndex ≤ a.endIndex + 1)
          ((⟨cur.startIndex, next.endIndex, cur.patternType,
            max cur.confidence next.confidence, cur.features⟩ :
              PatternSegment) :: rest) := by
        cases rest with
        | nil => exact List.chain'_singleton _
        | cons t ts =>
          rw [List.chain'_cons] at hl2 ⊢
          exact ⟨hl2.1, hl2.2⟩
      have hsort' : List.Chain'
          (fun a b => a.startIndex ≤ b.startIndex)
          ((⟨cur.startIndex, next.endIndex, cur.patternType,
            max cur.confidence next.confidence, cur.features⟩ :
              PatternSegment) :: rest) := by
        cases rest with
        | nil => exact List.chain'_singleton _
        | cons t ts =>
          rw [List.chain'_cons] at hs2 ⊢
          exact ⟨le_trans hs1 hs2.1, hs2.2⟩
      obtain ⟨ih1, ih2, ih3⟩ := ih _ hlink' hsort'
      have hlast_eq :
          ((rest.getLastD (⟨cur.startIndex, next.endIndex, cur.patternType,
            max cur.confidence next.confidence, cur.features⟩ :
              PatternSegment)).endIndex : Nat) =
          (rest.getLastD next).endIndex := by
        cases rest <;> rfl
      refine ⟨fun s hs => ih1 s hs, ih2, ?_⟩
      intro j hj1 hj2
      simp only [List.getLastD_cons] at hj2
      exact ih3 j hj1 (by rw [hlast_eq]; exact hj2)
    · rw [if_neg h]
      obtain ⟨ih1, ih2, ih3⟩ := ih next hl2 hs2
      refine ⟨?_, ?_, ?_⟩
      · intro s hs
        cases hs with
        | head => exact le_refl _
        | tail _ hs' => exact le_trans hs1 (ih1 s hs')
      · refine List.chain'_cons'.mpr ⟨?_, ih2⟩
        intro b hb
        exact le_trans hs1 (ih1 b (List.mem_of_mem_head? hb))
      · intro j hj1 hj2
        simp only [List.getLastD_cons] at hj2
        by_cases hje : j ≤ cur.endIndex
        · exact ⟨cur, List.mem_cons_self _ _, hj1, hje⟩
        · obtain ⟨s, hsmem, hs3, hs4⟩ := ih3 j (by omega) hj2
          exact ⟨s, List.mem_cons_of_mem _ hsmem, hs3, hs4⟩

/-- C3 (corrected): for every hand-local stream of at least 2 notes, the
post-processed segment list is sorted by `startIndex` (non-decreasing)
and the union of its `[startIndex, endIndex]` ranges covers every note
index; distinct segments may still overlap, and a 1-note stream yields
no segments at all. -/
theorem c3_cover_sorted (notes : List Note) (hand : Hand)
    (h : 2 ≤ notes.length) :
    List.Chain' (fun a b => a.startIndex ≤ b.startIndex)
      (recognizeHandPatterns notes hand) ∧
    ∀ j < notes.length, ∃ s ∈ recognizeHandPatterns notes hand,
      s.startIndex ≤ j ∧ j ≤ s.endIndex := by
  obtain ⟨s, rest, heq, hstart, hlink, hsort, hlast⟩ :=
    recognizeLoopGo_main notes (notes.length - 0) 0 (by omega) (by omega)
  have hrec : recognizeHandPatterns notes hand = postProcessGo s rest := by
    unfold recognizeHandPatterns recognizeLoop
    rw [if_neg (by omega), heq]
    rfl
  obtain ⟨hp1, hp2, hp3⟩ := postProcessGo_props rest s hlink hsort
  rw [hrec]
  refine ⟨hp2, ?_⟩
  intro j hj
  exact hp3 j (by omega) (by rw [hlast]; omega)

/-- Witness for C3 at a concrete 12-note right-hand stream. -/
theorem c3_cover_sorted_witness :
    2 ≤ c3notes.length ∧
    (List.Chain' (fun a b => a.startIndex ≤ b.startIndex)
        (recognizeHandPatterns c3notes Hand.RH) ∧
      ∀ j < c3notes.length, ∃ s ∈ recognizeHandPatterns c3notes Hand.RH,
        s.startIndex ≤ j ∧ j ≤ s.endIndex) :=
  ⟨by decide, c3_cover_sorted c3notes Hand.RH (by decide)⟩

end PianoFingering
namespace PianoFingering

/-- C6 (corrected): a window that reaches the LEAP test (all
higher-priority detectors and branches having failed) is labelled LEAP
exactly when the maximum absolute interval exceeds 4 and the number of
direction changes exceeds `0.4 * notes.length` — 0.4 times the note
count, not 0.4 times the interval count (which is the note count minus
one). -/
theorem c6_leap_rule (notes : List Note) (f : ExtractedFeatures)
    (h1 : detectOrnamented notes f = none)
    (h2 : detectAlberti notes f = none)
    (h3 : detectOstinato notes f = none)
    (h4 : detectPolyphonic notes f = none)
    (h5 : ¬ (2 ≤ f.avgSimultaneity ∨ 3 ≤ f.maxSimultaneity))
    (h6 : ¬ (4/5 ≤ f.stepwiseFrac ∧ determineDirection f ≠ Direction.mixed))
    (h7 : ¬ (1/2 ≤ f.leapFrac ∧ belongsToChord f.pitches = true))
    (h8 : ¬ (f.pitchEntropyLtHalf = true ∧
      (detectRepeated notes f).isSome = true)) :
    (classifyPattern notes f).type = PatternType.LEAP ↔
      (4 < f.maxInterval ∧
        (notes.length : Rat) * (2/5) < (f.directionChanges : Rat)) := by
  unfold classifyPattern
  rw [h1, h2, h3, h4]
  dsimp only
  simp only [Bool.or_eq_true, Bool.and_eq_true, decide_eq_true_eq]
  rw [if_neg h5, if_neg h6, if_neg h7, if_neg h8]
  by_cases hL : 4 < f.maxInterval ∧
      (notes.length : Rat) * (2/5) < (f.directionChanges : Rat)
  · rw [if_pos hL]
    dsimp only [classifyLeap]
    exact ⟨fun _ => hL, fun _ => rfl⟩
  · rw [if_neg hL]
    constructor
    · intro hty
      exfalso
      by_cases h9 : f.hasSlur = true ∨ 3/10 < f.durationVariance
      · rw [if_pos h9] at hty
        simp [classifyMelodic] at hty
      · rw [if_neg h9] at hty
        simp at hty
    · intro hc
      exact absurd hc hL

/-- Witness for C6 at a concrete 8-note window whose maximum interval
is 10 and which has 4 direction changes against the threshold
`8 * 0.4 = 3.2`. -/
theorem c6_leap_rule_witness :
    (classifyPattern c6wnotes (extractFeatures c6wnotes)).type =
        PatternType.LEAP ↔
      (4 < (extractFeatures c6wnotes).maxInterval ∧
        (c6wnotes.length : Rat) * (2/5) <
          ((extractFeatures c6wnotes).directionChanges : Rat)) :=
  c6_leap_rule c6wnotes (extractFeatures c6wnotes)
    (by with_unfolding_all decide) (by with_unfolding_all decide)
    (by with_unfolding_all decide) (by with_unfolding_all decide)
    (by with_unfolding_all decide) (by with_unfolding_all decide)
    (by with_unfolding_all decide) (by with_unfolding_all decide)

end PianoFingering
namespace PianoFingering

theorem dssGo_asc :
    ∀ (l : List Note) (prevPitch : Int) (segStart i stepCount : Nat)
      (direction : Int),
      (∀ hd ∈ l.head?, hd.pitch - prevPitch = 1 ∨ hd.pitch - prevPitch = 2) →
      List.Chain' (fun x y => y.pitch - x.pitch = 1 ∨ y.pitch - x.pitch = 2) l →
      ((direction = 0 ∧ stepCount = 0) ∨ (direction = 1 ∧ 1 ≤ stepCount)) →
      dssGo prevPitch segStart direction stepCount i l =
        (if 4 ≤ stepCount + l.length
         then [⟨segStart, i + l.length - 1, true⟩] else []) := by
  intro l
  induction l with
  | nil =>
    intro prevPitch segStart i stepCount direction _ _ hinv
    unfold dssGo
    rcases hinv with ⟨hd, hs⟩ | ⟨hd, hs⟩
    · rw [hs]
      norm_num
    · rw [hd]
      norm_num
  | cons note rest ih =>
    intro prevPitch segStart i stepCount direction hhead hchain hinv
    have hstep : note.pitch - prevPitch = 1 ∨ note.pitch - prevPitch = 2 :=
      hhead note rfl
    obtain ⟨hh2, hchain2⟩ := List.chain'_cons'.mp hchain
    unfold dssGo
    dsimp only
    have hcond : ((decide ((note.pitch - prevPitch).natAbs = 1) ||
        decide ((note.pitch - prevPitch).natAbs = 2)) &&
        (decide (intSign (note.pitch - prevPitch) = direction) ||
          decide (direction = 0))) = true := by
      rcases hstep with h | h <;> rw [h] <;>
        rcases hinv with ⟨hd, _⟩ | ⟨hd, _⟩ <;> rw [hd] <;> decide
    rw [if_pos hcond]
    have hdir : (if direction = 0 then intSign (note.pitch - prevPitch)
        else direction) = 1 := by
      rcases hinv with ⟨hd, _⟩ | ⟨hd, _⟩
      · rw [hd, if_pos rfl]
        rcases hstep with h | h <;> rw [h] <;> rfl
      · rw [if_neg (by omega), hd]
    rw [hdir]
    rw [ih note.pitch segStart (i + 1) (stepCount + 1) 1 hh2 hchain2
      (Or.inr ⟨rfl, by omega⟩)]
    have e1 : stepCount + 1 + rest.length = stepCount + (note :: rest).length := by
      simp only [List.length_cons]
      omega
    have e2 : i + 1 + rest.length - 1 = i + (note :: rest).length - 1 := by
      simp only [List.length_cons]
      omega
    rw [e1, e2]

theorem detectScaleSegments_asc (notes : List Note) (h5 : 5 ≤ notes.length)
    (hasc : StrictAscStepwise notes) :
    detectScaleSegments notes = [⟨0, notes.length - 1, true⟩] := by
  unfold detectScaleSegments
  rw [if_neg (by omega)]
  cases notes with
  | nil => simp at h5
  | cons n0 rest =>
    obtain ⟨hh, hc⟩ := List.chain'_cons'.mp hasc
    dsimp only
    rw [dssGo_asc rest n0.pitch 0 1 0 0 hh hc (Or.inl ⟨rfl, rfl⟩)]
    simp only [List.length_cons] at h5 ⊢
    rw [if_pos (by omega)]
    have e : 1 + rest.length - 1 = rest.length + 1 - 1 := by omega
    rw [e]

theorem ruleProgression_pc (cfg : DifficultyConfig) (pf cf : Nat) (iv : Int)
    (hand : Hand) (pc1 pc2 : PatternType) :
    ruleProgression cfg pf cf iv hand pc1 true =
      ruleProgression cfg pf cf iv hand pc2 true := by
  unfold ruleProgression
  rw [if_pos (show (true = true) ∨ pc1 = PatternType.SCALE from Or.inl rfl),
      if_pos (show (true = true) ∨ pc2 = PatternType.SCALE from Or.inl rfl)]

theorem ruleScale_pc (cfg : DifficultyConfig) (pf cf : Nat) (iv : Int)
    (hand : Hand) (pc1 pc2 : PatternType) :
    ruleScale cfg pf cf iv hand pc1 true =
      ruleScale cfg pf cf iv hand pc2 true := by
  unfold ruleScale
  rw [if_pos (show (true = true) ∨ pc1 = PatternType.SCALE from Or.inl rfl),
      if_pos (show (true = true) ∨ pc2 = PatternType.SCALE from Or.inl rfl)]

theorem ruleArpeggio_ne (pf cf : Nat) (iv : Int) (hand : Hand)
    (pc : PatternType) (h : pc ≠ PatternType.ARPEGGIO) :
    ruleArpeggio pf cf iv hand pc = 0 := by
  unfold ruleArpeggio
  rw [if_neg h]

theorem ctc_pc (level : Difficulty) (cfg : DifficultyConfig) (pn : Note)
    (pf : Nat) (cn : Note) (cf : Nat) (pc1 pc2 : PatternType) (hand : Hand)
    (pos : HandPos) (h1 : pc1 ≠ PatternType.ARPEGGIO)
    (h2 : pc2 ≠ PatternType.ARPEGGIO) :
    computeTransitionCost level cfg pn pf cn cf pc1 hand pos true =
      computeTransitionCost level cfg pn pf cn cf pc2 hand pos true := by
  simp only [computeTransitionCost]
  rw [ruleProgression_pc cfg pf cf _ hand pc1 pc2,
      ruleScale_pc cfg pf cf _ hand pc1 pc2,
      ruleArpeggio_ne pf cf _ hand pc1 h1,
      ruleArpeggio_ne pf cf _ hand pc2 h2]

theorem dpLayersGen_congr (init1 init2 : List (Option DPState))
    (tc1 tc2 : Nat → Nat → Nat → Rat) :
    ∀ m, init1 = init2 → (∀ i, i ≤ m → tc1 i = tc2 i) →
      dpLayersGen init1 tc1 m = dpLayersGen init2 tc2 m := by
  intro m
  induction m with
  | zero =>
    intro h _
    exact h
  | succ k ih =>
    intro h hagree
    unfold dpLayersGen
    rw [ih h (fun i hi => hagree i (by omega)), hagree (k + 1) (le_refl _)]

theorem backtrackFrom_congr (L1 L2 : Nat → List (Option DPState)) :
    ∀ (i f : Nat), (∀ j, j ≤ i → L1 j = L2 j) →
      backtrackFrom L1 i f = backtrackFrom L2 i f := by
  intro i
  induction i with
  | zero =>
    intro f _
    rfl
  | succ k ih =>
    intro f h
    unfold backtrackFrom
    rw [h (k + 1) (le_refl _)]
    dsimp only
    rw [ih _ (fun j hj => h j (by omega))]

theorem dpW_scale_ctx_eq (level : Difficulty) (notes : List Note)
    (h5 : 5 ≤ notes.length) (hasc : StrictAscStepwise notes) :
    dpOptimizationWith level notes (fun _ => PatternType.SCALE) Hand.RH =
      dpOptimizationWith level notes (fun _ => PatternType.UNKNOWN) Hand.RH := by
  have hdss := detectScaleSegments_asc notes h5 hasc
  have htc : ∀ i, i ≤ notes.length - 1 →
      dpTransW level notes (fun _ => PatternType.SCALE) Hand.RH i =
        dpTransW level notes (fun _ => PatternType.UNKNOWN) Hand.RH i := by
    intro i hi
    funext fromF toF
    unfold dpTransW dpTransCostW
    rw [hdss]
    have hsc : inScaleAt [⟨0, notes.length - 1, true⟩] i = true := by
      simp [inScaleAt, hi]
    rw [hsc]
    exact ctc_pc level _ _ fromF _ toF PatternType.SCALE PatternType.UNKNOWN
      Hand.RH _ (by simp) (by simp)
  have hlayers : ∀ j, j ≤ notes.length - 1 →
      dpLayersW level notes (fun _ => PatternType.SCALE) Hand.RH j =
        dpLayersW level notes (fun _ => PatternType.UNKNOWN) Hand.RH j := by
    intro j hj
    unfold dpLayersW
    exact dpLayersGen_congr _ _ _ _ j rfl (fun i hi => htc i (by omega))
  have h0 : ¬ (notes.length = 0) := by omega
  unfold dpOptimizationWith
  rw [if_neg h0, if_neg h0]
  dsimp only
  rw [hlayers _ (le_refl _),
      backtrackFrom_congr _ _ (notes.length - 1) _ hlayers]

end PianoFingering
namespace PianoFingering

theorem map_pitch_getD : ∀ (notes notes' : List Note) (d : Int),
    notes'.map (·.pitch) = notes.map (fun x => x.pitch + d) →
    ∀ i, i < notes.length →
      (notes'.getD i defaultNote).pitch =
        (notes.getD i defaultNote).pitch + d := by
  intro notes
  induction notes with
  | nil =>
    intro notes' d h i hi
    simp at hi
  | cons x xs ih =>
    intro notes' d h i hi
    cases notes' with
    | nil => simp at h
    | cons y ys =>
      simp only [List.map_cons, List.cons.injEq] at h
      obtain ⟨h1, h2⟩ := h
      cases i with
      | zero => simpa using h1
      | succ j =>
        simp only [List.getD_cons_succ]
        exact ih ys d h2 j (by simpa using hi)

theorem getD_map_hp : ∀ (ps : List HandPos) (d : Int) (i : Nat),
    i < ps.length →
    (ps.map (fun q => (⟨q.anchorPitch + d, q.inPosition⟩ : HandPos))).getD
        i ⟨0, true⟩ =
      ⟨(ps.getD i ⟨0, true⟩).anchorPitch + d,
        (ps.getD i ⟨0, true⟩).inPosition⟩ := by
  intro ps
  induction ps with
  | nil =>
    intro d i hi
    simp at hi
  | cons q qs ih =>
    intro d i hi
    cases i with
    | zero => rfl
    | succ j =>
      simp only [List.map_cons, List.getD_cons_succ]
      exact ih d j (by simpa using hi)

theorem ahpGo_length (hand : Hand) :
    ∀ (l : List Note) (mn mx : Int) (pending : Nat),
      (ahpGo hand mn mx pending l).length = pending + l.length := by
  intro l
  induction l with
  | nil =>
    intro mn mx pending
    simp [ahpGo]
  | cons x xs ih =>
    intro mn mx pending
    unfold ahpGo
    dsimp only
    by_cases hc : 8 < max mx x.pitch - min mn x.pitch
    · rw [if_pos hc]
      simp only [List.length_append, List.length_replicate, ih,
        List.length_cons]
      omega
    · rw [if_neg hc, ih]
      simp only [List.length_cons]
      omega

theorem ahp_length (notes : List Note) (hand : Hand) :
    (analyzeHandPositions notes hand).length = notes.length := by
  cases notes with
  | nil => rfl
  | cons n0 rest =>
    unfold analyzeHandPositions
    rw [ahpGo_length]
    omega

theorem ahpGo_shift (hand : Hand) (d : Int) :
    ∀ (l l' : List Note), l'.map (·.pitch) = l.map (fun x => x.pitch + d) →
    ∀ (mn mx : Int) (pending : Nat),
      ahpGo hand (mn + d) (mx + d) pending l' =
        (ahpGo hand mn mx pending l).map
          (fun q => ⟨q.anchorPitch + d, q.inPosition⟩) := by
  intro l
  induction l with
  | nil =>
    intro l' hmap mn mx pending
    have hl' : l' = [] := by
      cases l' with
      | nil => rfl
      | cons a b => simp at hmap
    rw [hl']
    unfold ahpGo
    rw [List.map_replicate]
    cases hand <;> rfl
  | cons x xs ih =>
    intro l' hmap mn mx pending
    cases l' with
    | nil => simp at hmap
    | cons y ys =>
      simp only [List.map_cons, List.cons.injEq] at hmap
      obtain ⟨hy, hys⟩ := hmap
      unfold ahpGo
      dsimp only
      rw [hy]
      have hmin : min (mn + d) (x.pitch + d) = min mn x.pitch + d := by omega
      have hmax : max (mx + d) (x.pitch + d) = max mx x.pitch + d := by omega
      rw [hmin, hmax]
      by_cases hc : 8 < max mx x.pitch - min mn x.pitch
      · rw [if_pos (by omega), if_pos hc]
        rw [List.map_append, List.map_replicate]
        rw [ih ys hys x.pitch x.pitch 1]
        cases hand <;> rfl
      · rw [if_neg (by omega), if_neg hc]
        exact ih ys hys (min mn x.pitch) (max mx x.pitch) (pending + 1)

theorem ahp_shift (hand : Hand) (d : Int) (notes notes' : List Note)
    (hpitch : notes'.map (·.pitch) = notes.map (fun x => x.pitch + d)) :
    analyzeHandPositions notes' hand =
      (analyzeHandPositions notes hand).map
        (fun q => ⟨q.anchorPitch + d, q.inPosition⟩) := by
  cases notes with
  | nil =>
    have hl' : notes' = [] := by
      cases notes' with
      | nil => rfl
      | cons a b => simp at hpitch
    rw [hl']
    rfl
  | cons n0 rest =>
    cases notes' with
    | nil => simp at hpitch
    | cons m0 rest' =>
      unfold analyzeHandPositions
      dsimp only
      have h0 : m0.pitch = n0.pitch + d := by
        have h := hpitch
        simp only [List.map_cons, List.cons.injEq] at h
        exact h.1
      rw [h0]
      exact ahpGo_shift hand d (n0 :: rest) (m0 :: rest') hpitch
        n0.pitch n0.pitch 0

theorem cic_shift (level : Difficulty) (cfg : DifficultyConfig) (f : Nat)
    (note note' : Note) (hand : Hand) (pos : HandPos) (d : Int)
    (hp : note'.pitch = note.pitch + d)
    (hb : isBlackKey note'.pitch = isBlackKey note.pitch) :
    computeInitialCost level cfg f note' hand
        ⟨pos.anchorPitch + d, pos.inPosition⟩ =
      computeInitialCost level cfg f note hand pos := by
  have hoff : note'.pitch - (pos.anchorPitch + d) =
      note.pitch - pos.anchorPitch := by
    rw [hp]
    ring
  simp only [computeInitialCost]
  rw [hoff, hb]

theorem ctc_shift (level : Difficulty) (cfg : DifficultyConfig)
    (pn pn' cn cn' : Note) (pf cf : Nat) (pc : PatternType) (hand : Hand)
    (pos : HandPos) (insc : Bool) (d : Int)
    (hpp : pn'.pitch = pn.pitch + d) (hcp : cn'.pitch = cn.pitch + d)
    (hb : isBlackKey cn'.pitch = isBlackKey cn.pitch) :
    computeTransitionCost level cfg pn' pf cn' cf pc hand
        ⟨pos.anchorPitch + d, pos.inPosition⟩ insc =
      computeTransitionCost level cfg pn pf cn cf pc hand pos insc := by
  have hiv : cn'.pitch - pn'.pitch = cn.pitch - pn.pitch := by
    rw [hpp, hcp]
    ring
  have hposr : rulePosition cn' cf hand
      ⟨pos.anchorPitch + d, pos.inPosition⟩ insc =
      rulePosition cn cf hand pos insc := by
    unfold rulePosition
    have hoff : cn'.pitch - (⟨pos.anchorPitch + d, pos.inPosition⟩ :
        HandPos).anchorPitch = cn.pitch - pos.anchorPitch := by
      dsimp only
      rw [hcp]
      ring
    rw [hoff]
  have hbk : ruleBlackKey cfg cn' cf = ruleBlackKey cfg cn cf := by
    unfold ruleBlackKey
    rw [hb]
  have hdiff : ∀ iv : Int, ruleDifficulty level cfg pf cf cn' iv =
      ruleDifficulty level cfg pf cf cn iv := by
    intro iv
    cases level
    · simp only [ruleDifficulty]
      rw [hb]
    · simp only [ruleDifficulty]
    · simp only [ruleDifficulty]
  simp only [computeTransitionCost]
  rw [hiv, hposr, hbk, hdiff]

theorem detectScaleSegments_small (notes : List Note)
    (h : notes.length < 5) : detectScaleSegments notes = [] := by
  unfold detectScaleSegments
  rw [if_pos h]

theorem dpW_shift (level : Difficulty) (hand : Hand) (ctx : Nat → PatternType)
    (notes notes' : List Note) (d : Int)
    (hlen5 : notes.length < 5)
    (hpitch : notes'.map (·.pitch) = notes.map (fun x => x.pitch + d))
    (hblack : ∀ x ∈ notes, isBlackKey (x.pitch + d) = isBlackKey x.pitch) :
    (dpOptimizationWith level notes' ctx hand).totalCost =
      (dpOptimizationWith level notes ctx hand).totalCost := by
  have hlen : notes'.length = notes.length := by
    have h := congrArg List.length hpitch
    simpa using h
  by_cases h0 : notes.length = 0
  · unfold dpOptimizationWith
    rw [if_pos h0, if_pos (by omega)]
  · have hpitchD : ∀ i, i < notes.length →
        (notes'.getD i defaultNote).pitch =
          (notes.getD i defaultNote).pitch + d :=
      map_pitch_getD notes notes' d hpitch
    have hblackD : ∀ i, i < notes.length →
        isBlackKey (notes'.getD i defaultNote).pitch =
          isBlackKey (notes.getD i defaultNote).pitch := by
      intro i hi
      rw [hpitchD i hi]
      refine hblack _ ?_
      rw [List.getD_eq_getElem _ _ hi]
      exact List.getElem_mem _
    have hposD : ∀ i, i < notes.length →
        (analyzeHandPositions notes' hand).getD i ⟨0, true⟩ =
          ⟨((analyzeHandPositions notes hand).getD i ⟨0, true⟩).anchorPitch + d,
            ((analyzeHandPositions notes hand).getD i ⟨0, true⟩).inPosition⟩ := by
      intro i hi
      rw [ahp_shift hand d notes notes' hpitch]
      exact getD_map_hp _ d i (by rw [ahp_length]; omega)
    have hinit : dpInitW level notes' hand = dpInitW level notes hand := by
      unfold dpInitW
      refine List.map_congr_left (fun f _ => ?_)
      rw [hposD 0 (by omega),
        cic_shift level (getDifficultyConfig level) f _ _ hand _ d
          (hpitchD 0 (by omega)) (hblackD 0 (by omega))]
    have htc : ∀ i, i ≤ notes.length - 1 →
        dpTransW level notes' ctx hand i = dpTransW level notes ctx hand i := by
      intro i hi
      funext fromF toF
      unfold dpTransW dpTransCostW
      rw [detectScaleSegments_small notes' (by omega),
          detectScaleSegments_small notes hlen5]
      rw [hposD i (by omega)]
      exact ctc_shift level _ _ _ _ _ fromF toF (ctx i) hand _ _ d
        (hpitchD (i - 1) (by omega)) (hpitchD i (by omega))
        (hblackD i (by omega))
    unfold dpOptimizationWith
    rw [if_neg (by omega), if_neg h0]
    dsimp only
    rw [hlen]
    have hL : dpLayersW level notes' ctx hand (notes.length - 1) =
        dpLayersW level notes ctx hand (notes.length - 1) := by
      unfold dpLayersW
      exact dpLayersGen_congr _ _ _ _ _ hinit (fun i hi => htc i hi)
    rw [hL]

end PianoFingering
namespace PianoFingering

theorem isBlackKey_add_twelve (p : Int) (hp : 0 ≤ p) :
    isBlackKey (p + 12) = isBlackKey p := by
  unfold isBlackKey
  have h : (p + 12).tmod 12 = p.tmod 12 := by
    rw [Int.tmod_eq_emod (by omega) (by norm_num),
        Int.tmod_eq_emod hp (by norm_num)]
    omega
  rw [h]

theorem c9transport (lv : Difficulty) (ctx : Nat → PatternType)
    (a b c : Nat) (r r' : Int)
    (hbk : ∀ x ∈ mkScale4 r a b c,
      isBlackKey (x.pitch + (r' - r)) = isBlackKey x.pitch) :
    (dpOptimizationWith lv (mkScale4 r' a b c) ctx Hand.RH).totalCost =
      (dpOptimizationWith lv (mkScale4 r a b c) ctx Hand.RH).totalCost := by
  refine dpW_shift lv Hand.RH ctx (mkScale4 r a b c) (mkScale4 r' a b c)
    (r' - r) (by norm_num [mkScale4]) ?_ hbk
  simp only [mkScale4, canonNote, List.map_cons, List.map_nil]
  simp only [List.cons.injEq, and_true]
  refine ⟨by ring, by ring, by ring, by ring⟩

theorem costLE_refl (x : Option Rat) : costLE x x := by
  cases x
  · exact trivial
  · exact le_refl _

end PianoFingering
namespace PianoFingering

/-- Base cases of the 4-note scale-context comparison for step
pattern `1 1 1`: one representative start pitch per distinct
black-key pattern, for all three difficulty profiles. -/
theorem c9reps111 :
    ∀ lv ∈ [Difficulty.beginner, Difficulty.intermediate,
      Difficulty.advanced],
    ∀ r ∈ ([(0 : Int), (1 : Int), (2 : Int), (3 : Int), (4 : Int)] : List Int),
    costLE
      (dpOptimizationWith lv (mkScale4 r 1 1 1)
        (fun _ => PatternType.SCALE) Hand.RH).totalCost
      (dpOptimizationWith lv (mkScale4 r 1 1 1)
        (fun _ => PatternType.UNKNOWN) Hand.RH).totalCost := by
  with_unfolding_all decide

/-- Base cases of the 4-note scale-context comparison for step
pattern `1 1 2`: one representative start pitch per distinct
black-key pattern, for all three difficulty profiles. -/
theorem c9reps112 :
    ∀ lv ∈ [Difficulty.beginner, Difficulty.intermediate,
      Difficulty.advanced],
    ∀ r ∈ ([(0 : Int), (1 : Int), (2 : Int), (3 : Int), (4 : Int), (6 : Int)] : List Int),
    costLE
      (dpOptimizationWith lv (mkScale4 r 1 1 2)
        (fun _ => PatternType.SCALE) Hand.RH).totalCost
      (dpOptimizationWith lv (mkScale4 r 1 1 2)
        (fun _ => PatternType.UNKNOWN) Hand.RH).totalCost := by
  with_unfolding_all decide

/-- Base cases of the 4-note scale-context comparison for step
pattern `1 2 1`: one representative start pitch per distinct
black-key pattern, for all three difficulty profiles. -/
theorem c9reps121 :
    ∀ lv ∈ [Difficulty.beginner, Difficulty.intermediate,
      Difficulty.advanced],
    ∀ r ∈ ([(0 : Int), (1 : Int), (2 : Int), (3 : Int), (4 : Int), (6 : Int)] : List Int),
    costLE
      (dpOptimizationWith lv (mkScale4 r 1 2 1)
        (fun _ => PatternType.SCALE) Hand.RH).totalCost
      (dpOptimizationWith lv (mkScale4 r 1 2 1)
        (fun _ => PatternType.UNKNOWN) Hand.RH).totalCost := by
  with_unfolding_all decide

/-- Base cases of the 4-note scale-context comparison for step
pattern `1 2 2`: one representative start pitch per distinct
black-key pattern, for all three difficulty profiles. -/
theorem c9reps122 :
    ∀ lv ∈ [Difficulty.beginner, Difficulty.intermediate,
      Difficulty.advanced],
    ∀ r ∈ ([(0 : Int), (1 : Int), (2 : Int), (3 : Int), (4 : Int), (5 : Int), (6 : Int)] : List Int),
    costLE
      (dpOptimizationWith lv (mkScale4 r 1 2 2)
        (fun _ => PatternType.SCALE) Hand.RH).totalCost
      (dpOptimizationWith lv (mkScale4 r 1 2 2)
        (fun _ => PatternType.UNKNOWN) Hand.RH).totalCost := by
  with_unfolding_all decide

/-- Base cases of the 4-note scale-context comparison for step
pattern `2 1 1`: one representative start pitch per distinct
black-key pattern, for all three difficulty profiles. -/
theorem c9reps211 :
    ∀ lv ∈ [Difficulty.beginner, Difficulty.intermediate,
      Difficulty.advanced],
    ∀ r ∈ ([(0 : Int), (1 : Int), (2 : Int), (3 : Int), (4 : Int), (6 : Int)] : List Int),
    costLE
      (dpOptimizationWith lv (mkScale4 r 2 1 1)
        (fun _ => PatternType.SCALE) Hand.RH).totalCost
      (dpOptimizationWith lv (mkScale4 r 2 1 1)
        (fun _ => PatternType.UNKNOWN) Hand.RH).totalCost := by
  with_unfolding_all decide

/-- Base cases of the 4-note scale-context comparison for step
pattern `2 1 2`: one representative start pitch per distinct
black-key pattern, for all three difficulty profiles. -/
theorem c9reps212 :
    ∀ lv ∈ [Difficulty.beginner, Difficulty.intermediate,
      Difficulty.advanced],
    ∀ r ∈ ([(0 : Int), (1 : Int), (2 : Int), (3 : Int), (4 : Int), (5 : Int), (6 : Int)] : List Int),
    costLE
      (dpOptimizationWith lv (mkScale4 r 2 1 2)
        (fun _ => PatternType.SCALE) Hand.RH).totalCost
      (dpOptimizationWith lv (mkScale4 r 2 1 2)
        (fun _ => PatternType.UNKNOWN) Hand.RH).totalCost := by
  with_unfolding_all decide

/-- Base cases of the 4-note scale-context comparison for step
pattern `2 2 1`: one representative start pitch per distinct
black-key pattern, for all three difficulty profiles. -/
theorem c9reps221 :
    ∀ lv ∈ [Difficulty.beginner, Difficulty.intermediate,
      Difficulty.advanced],
    ∀ r ∈ ([(0 : Int), (1 : Int), (2 : Int), (3 : Int), (4 : Int), (5 : Int), (6 : Int)] : List Int),
    costLE
      (dpOptimizationWith lv (mkScale4 r 2 2 1)
        (fun _ => PatternType.SCALE) Hand.RH).totalCost
      (dpOptimizationWith lv (mkScale4 r 2 2 1)
        (fun _ => PatternType.UNKNOWN) Hand.RH).totalCost := by
  with_unfolding_all decide

/-- Base cases of the 4-note scale-context comparison for step
pattern `2 2 2`: one representative start pitch per distinct
black-key pattern, for all three difficulty profiles. -/
theorem c9reps222 :
    ∀ lv ∈ [Difficulty.beginner, Difficulty.intermediate,
      Difficulty.advanced],
    ∀ r ∈ ([(0 : Int), (1 : Int), (2 : Int), (3 : Int), (4 : Int), (5 : Int), (6 : Int), (11 : Int)] : List Int),
    costLE
      (dpOptimizationWith lv (mkScale4 r 2 2 2)
        (fun _ => PatternType.SCALE) Hand.RH).totalCost
      (dpOptimizationWith lv (mkScale4 r 2 2 2)
        (fun _ => PatternType.UNKNOWN) Hand.RH).totalCost := by
  with_unfolding_all decide

/-- All start pitch classes, reduced to the representatives above by
transposition (`c9transport`). -/
theorem c9base (lv : Difficulty) (r : Int) (a b c : Nat)
    (h0 : 0 ≤ r) (h12 : r < 12)
    (ha : a = 1 ∨ a = 2) (hb : b = 1 ∨ b = 2) (hc : c = 1 ∨ c = 2) :
    costLE
      (dpOptimizationWith lv (mkScale4 r a b c)
        (fun _ => PatternType.SCALE) Hand.RH).totalCost
      (dpOptimizationWith lv (mkScale4 r a b c)
        (fun _ => PatternType.UNKNOWN) Hand.RH).totalCost := by
  have hr : r = 0 ∨ r = 1 ∨ r = 2 ∨ r = 3 ∨ r = 4 ∨ r = 5 ∨ r = 6 ∨
      r = 7 ∨ r = 8 ∨ r = 9 ∨ r = 10 ∨ r = 11 := by omega
  rcases ha with rfl | rfl <;> rcases hb with rfl | rfl <;>
    rcases hc with rfl | rfl <;>
    rcases hr with rfl | rfl | rfl | rfl | rfl | rfl | rfl | rfl | rfl | rfl | rfl | rfl
  · exact c9reps111 lv (by cases lv <;> decide) (0 : Int) (by decide)
  · exact c9reps111 lv (by cases lv <;> decide) (1 : Int) (by decide)
  · exact c9reps111 lv (by cases lv <;> decide) (2 : Int) (by decide)
  · exact c9reps111 lv (by cases lv <;> decide) (3 : Int) (by decide)
  · exact c9reps111 lv (by cases lv <;> decide) (4 : Int) (by decide)
  · rw [c9transport lv (fun _ => PatternType.SCALE) 1 1 1 (0 : Int)
        (5 : Int) (by with_unfolding_all decide),
      c9transport lv (fun _ => PatternType.UNKNOWN) 1 1 1 (0 : Int)
        (5 : Int) (by with_unfolding_all decide)]
    exact c9reps111 lv (by cases lv <;> decide) (0 : Int) (by decide)
  · rw [c9transport lv (fun _ => PatternType.SCALE) 1 1 1 (1 : Int)
        (6 : Int) (by with_unfolding_all decide),
      c9transport lv (fun _ => PatternType.UNKNOWN) 1 1 1 (1 : Int)
        (6 : Int) (by with_unfolding_all decide)]
    exact c9reps111 lv (by cases lv <;> decide) (1 : Int) (by decide)
  · rw [c9transport lv (fun _ => PatternType.SCALE) 1 1 1 (0 : Int)
        (7 : Int) (by with_unfolding_all decide),
      c9transport lv (fun _ => PatternType.UNKNOWN) 1 1 1 (0 : Int)
        (7 : Int) (by with_unfolding_all decide)]
    exact c9reps111 lv (by cases lv <;> decide) (0 : Int) (by decide)
  · rw [c9transport lv (fun _ => PatternType.SCALE) 1 1 1 (1 : Int)
        (8 : Int) (by with_unfolding_all decide),
      c9transport lv (fun _ => PatternType.UNKNOWN) 1 1 1 (1 : Int)
        (8 : Int) (by with_unfolding_all decide)]
    exact c9reps111 lv (by cases lv <;> decide) (1 : Int) (by decide)
  · rw [c9transport lv (fun _ => PatternType.SCALE) 1 1 1 (2 : Int)
        (9 : Int) (by with_unfolding_all decide),
      c9transport lv (fun _ => PatternType.UNKNOWN) 1 1 1 (2 : Int)
        (9 : Int) (by with_unfolding_all decide)]
    exact c9reps111 lv (by cases lv <;> decide) (2 : Int) (by decide)
  · rw [c9transport lv (fun _ => PatternType.SCALE) 1 1 1 (3 : Int)
        (10 : Int) (by with_unfolding_all decide),
      c9transport lv (fun _ => PatternType.UNKNOWN) 1 1 1 (3 : Int)
        (10 : Int) (by with_unfolding_all decide)]
    exact c9reps111 lv (by cases lv <;> decide) (3 : Int) (by decide)
  · rw [c9transport lv (fun _ => PatternType.SCALE) 1 1 1 (4 : Int)
        (11 : Int) (by with_unfolding_all decide),
      c9transport lv (fun _ => PatternType.UNKNOWN) 1 1 1 (4 : Int)
        (11 : Int) (by with_unfolding_all decide)]
    exact c9reps111 lv (by cases lv <;> decide) (4 : Int) (by decide)
  · exact c9reps112 lv (by cases lv <;> decide) (0 : Int) (by decide)
  · exact c9reps112 lv (by cases lv <;> decide) (1 : Int) (by decide)
  · exact c9reps112 lv (by cases lv <;> decide) (2 : Int) (by decide)
  · exact c9reps112 lv (by cases lv <;> decide) (3 : Int) (by decide)
  · exact c9reps112 lv (by cases lv <;> decide) (4 : Int) (by decide)
  · rw [c9transport lv (fun _ => PatternType.SCALE) 1 1 2 (0 : Int)
        (5 : Int) (by with_unfolding_all decide),
      c9transport lv (fun _ => PatternType.UNKNOWN) 1 1 2 (0 : Int)
        (5 : Int) (by with_unfolding_all decide)]
    exact c9reps112 lv (by cases lv <;> decide) (0 : Int) (by decide)
  · exact c9reps112 lv (by cases lv <;> decide) (6 : Int) (by decide)
  · rw [c9transport lv (fun _ => PatternType.SCALE) 1 1 2 (0 : Int)
        (7 : Int) (by with_unfolding_all decide),
      c9transport lv (fun _ => PatternType.UNKNOWN) 1 1 2 (0 : Int)
        (7 : Int) (by with_unfolding_all decide)]
    exact c9reps112 lv (by cases lv <;> decide) (0 : Int) (by decide)
  · rw [c9transport lv (fun _ => PatternType.SCALE) 1 1 2 (1 : Int)
        (8 : Int) (by with_unfolding_all decide),
      c9transport lv (fun _ => PatternType.UNKNOWN) 1 1 2 (1 : Int)
        (8 : Int) (by with_unfolding_all decide)]
    exact c9reps112 lv (by cases lv <;> decide) (1 : Int) (by decide)
  · rw [c9transport lv (fun _ => PatternType.SCALE) 1 1 2 (2 : Int)
        (9 : Int) (by with_unfolding_all decide),
      c9transport lv (fun _ => PatternType.UNKNOWN) 1 1 2 (2 : Int)
        (9 : Int) (by with_unfolding_all decide)]
    exact c9reps112 lv (by cases lv <;> decide) (2 : Int) (by decide)
  · rw [c9transport lv (fun _ => PatternType.SCALE) 1 1 2 (3 : Int)
        (10 : Int) (by with_unfolding_all decide),
      c9transport lv (fun _ => PatternType.UNKNOWN) 1 1 2 (3 : Int)
        (10 : Int) (by with_unfolding_all decide)]
    exact c9reps112 lv (by cases lv <;> decide) (3 : Int) (by decide)
  · rw [c9transport lv (fun _ => PatternType.SCALE) 1 1 2 (4 : Int)
        (11 : Int) (by with_unfolding_all decide),
      c9transport lv (fun _ => PatternType.UNKNOWN) 1 1 2 (4 : Int)
        (11 : Int) (by with_unfolding_all decide)]
    exact c9reps112 lv (by cases lv <;> decide) (4 : Int) (by decide)
  · exact c9reps121 lv (by cases lv <;> decide) (0 : Int) (by decide)
  · exact c9reps121 lv (by cases lv <;> decide) (1 : Int) (by decide)
  · exact c9reps121 lv (by cases lv <;> decide) (2 : Int) (by decide)
  · exact c9reps121 lv (by cases lv <;> decide) (3 : Int) (by decide)
  · exact c9reps121 lv (by cases lv <;> decide) (4 : Int) (by decide)
  · rw [c9transport lv (fun _ => PatternType.SCALE) 1 2 1 (0 : Int)
        (5 : Int) (by with_unfolding_all decide),
      c9transport lv (fun _ => PatternType.UNKNOWN) 1 2 1 (0 : Int)
        (5 : Int) (by with_unfolding_all decide)]
    exact c9reps121 lv (by cases lv <;> decide) (0 : Int) (by decide)
  · exact c9reps121 lv (by cases lv <;> decide) (6 : Int) (by decide)
  · rw [c9transport lv (fun _ => PatternType.SCALE) 1 2 1 (0 : Int)
        (7 : Int) (by with_unfolding_all decide),
      c9transport lv (fun _ => PatternType.UNKNOWN) 1 2 1 (0 : Int)
        (7 : Int) (by with_unfolding_all decide)]
    exact c9reps121 lv (by cases lv <;> decide) (0 : Int) (by decide)
  · rw [c9transport lv (fun _ => PatternType.SCALE) 1 2 1 (1 : Int)
        (8 : Int) (by with_unfolding_all decide),
      c9transport lv (fun _ => PatternType.UNKNOWN) 1 2 1 (1 : Int)
        (8 : Int) (by with_unfolding_all decide)]
    exact c9reps121 lv (by cases lv <;> decide) (1 : Int) (by decide)
  · rw [c9transport lv (fun _ => PatternType.SCALE) 1 2 1 (2 : Int)
        (9 : Int) (by with_unfolding_all decide),
      c9transport lv (fun _ => PatternType.UNKNOWN) 1 2 1 (2 : Int)
        (9 : Int) (by with_unfolding_all decide)]
    exact c9reps121 lv (by cases lv <;> decide) (2 : Int) (by decide)
  · rw [c9transport lv (fun _ => PatternType.SCALE) 1 2 1 (3 : Int)
        (10 : Int) (by with_unfolding_all decide),
      c9transport lv (fun _ => PatternType.UNKNOWN) 1 2 1 (3 : Int)
        (10 : Int) (by with_unfolding_all decide)]
    exact c9reps121 lv (by cases lv <;> decide) (3 : Int) (by decide)
  · rw [c9transport lv (fun _ => PatternType.SCALE) 1 2 1 (4 : Int)
        (11 : Int) (by with_unfolding_all decide),
      c9transport lv (fun _ => PatternType.UNKNOWN) 1 2 1 (4 : Int)
        (11 : Int) (by with_unfolding_all decide)]
    exact c9reps121 lv (by cases lv <;> decide) (4 : Int) (by decide)
  · exact c9reps122 lv (by cases lv <;> decide) (0 : Int) (by decide)
  · exact c9reps122 lv (by cases lv <;> decide) (1 : Int) (by decide)
  · exact c9reps122 lv (by cases lv <;> decide) (2 : Int) (by decide)
  · exact c9reps122 lv (by cases lv <;> decide) (3 : Int) (by decide)
  · exact c9reps122 lv (by cases lv <;> decide) (4 : Int) (by decide)
  · exact c9reps122 lv (by cases lv <;> decide) (5 : Int) (by decide)
  · exact c9reps122 lv (by cases lv <;> decide) (6 : Int) (by decide)
  · rw [c9transport lv (fun _ => PatternType.SCALE) 1 2 2 (0 : Int)
        (7 : Int) (by with_unfolding_all decide),
      c9transport lv (fun _ => PatternType.UNKNOWN) 1 2 2 (0 : Int)
        (7 : Int) (by with_unfolding_all decide)]
    exact c9reps122 lv (by cases lv <;> decide) (0 : Int) (by decide)
  · rw [c9transport lv (fun _ => PatternType.SCALE) 1 2 2 (1 : Int)
        (8 : Int) (by with_unfolding_all decide),
      c9transport lv (fun _ => PatternType.UNKNOWN) 1 2 2 (1 : Int)
        (8 : Int) (by with_unfolding_all decide)]
    exact c9reps122 lv (by cases lv <;> decide) (1 : Int) (by decide)
  · rw [c9transport lv (fun _ => PatternType.SCALE) 1 2 2 (2 : Int)
        (9 : Int) (by with_unfolding_all decide),
      c9transport lv (fun _ => PatternType.UNKNOWN) 1 2 2 (2 : Int)
        (9 : Int) (by with_unfolding_all decide)]
    exact c9reps122 lv (by cases lv <;> decide) (2 : Int) (by decide)
  · rw [c9transport lv (fun _ => PatternType.SCALE) 1 2 2 (3 : Int)
        (10 : Int) (by with_unfolding_all decide),
      c9transport lv (fun _ => PatternType.UNKNOWN) 1 2 2 (3 : Int)
        (10 : Int) (by with_unfolding_all decide)]
    exact c9reps122 lv (by cases lv <;> decide) (3 : Int) (by decide)
  · rw [c9transport lv (fun _ => PatternType.SCALE) 1 2 2 (4 : Int)
        (11 : Int) (by with_unfolding_all decide),
      c9transport lv (fun _ => PatternType.UNKNOWN) 1 2 2 (4 : Int)
        (11 : Int) (by with_unfolding_all decide)]
    exact c9reps122 lv (by cases lv <;> decide) (4 : Int) (by decide)
  · exact c9reps211 lv (by cases lv <;> decide) (0 : Int) (by decide)
  · exact c9reps211 lv (by cases lv <;> decide) (1 : Int) (by decide)
  · exact c9reps211 lv (by cases lv <;> decide) (2 : Int) (by decide)
  · exact c9reps211 lv (by cases lv <;> decide) (3 : Int) (by decide)
  · exact c9reps211 lv (by cases lv <;> decide) (4 : Int) (by decide)
  · rw [c9transport lv (fun _ => PatternType.SCALE) 2 1 1 (0 : Int)
        (5 : Int) (by with_unfolding_all decide),
      c9transport lv (fun _ => PatternType.UNKNOWN) 2 1 1 (0 : Int)
        (5 : Int) (by with_unfolding_all decide)]
    exact c9reps211 lv (by cases lv <;> decide) (0 : Int) (by decide)
  · exact c9reps211 lv (by cases lv <;> decide) (6 : Int) (by decide)
  · rw [c9transport lv (fun _ => PatternType.SCALE) 2 1 1 (0 : Int)
        (7 : Int) (by with_unfolding_all decide),
      c9transport lv (fun _ => PatternType.UNKNOWN) 2 1 1 (0 : Int)
        (7 : Int) (by with_unfolding_all decide)]
    exact c9reps211 lv (by cases lv <;> decide) (0 : Int) (by decide)
  · rw [c9transport lv (fun _ => PatternType.SCALE) 2 1 1 (1 : Int)
        (8 : Int) (by with_unfolding_all decide),
      c9transport lv (fun _ => PatternType.UNKNOWN) 2 1 1 (1 : Int)
        (8 : Int) (by with_unfolding_all decide)]
    exact c9reps211 lv (by cases lv <;> decide) (1 : Int) (by decide)
  · rw [c9transport lv (fun _ => PatternType.SCALE) 2 1 1 (2 : Int)
        (9 : Int) (by with_unfolding_all decide),
      c9transport lv (fun _ => PatternType.UNKNOWN) 2 1 1 (2 : Int)
        (9 : Int) (by with_unfolding_all decide)]
    exact c9reps211 lv (by cases lv <;> decide) (2 : Int) (by decide)
  · rw [c9transport lv (fun _ => PatternType.SCALE) 2 1 1 (3 : Int)
        (10 : Int) (by with_unfolding_all decide),
      c9transport lv (fun _ => PatternType.UNKNOWN) 2 1 1 (3 : Int)
        (10 : Int) (by with_unfolding_all decide)]
    exact c9reps211 lv (by cases lv <;> decide) (3 : Int) (by decide)
  · rw [c9transport lv (fun _ => PatternType.SCALE) 2 1 1 (4 : Int)
        (11 : Int) (by with_unfolding_all decide),
      c9transport lv (fun _ => PatternType.UNKNOWN) 2 1 1 (4 : Int)
        (11 : Int) (by with_unfolding_all decide)]
    exact c9reps211 lv (by cases lv <;> decide) (4 : Int) (by decide)
  · exact c9reps212 lv (by cases lv <;> decide) (0 : Int) (by decide)
  · exact c9reps212 lv (by cases lv <;> decide) (1 : Int) (by decide)
  · exact c9reps212 lv (by cases lv <;> decide) (2 : Int) (by decide)
  · exact c9reps212 lv (by cases lv <;> decide) (3 : Int) (by decide)
  · exact c9reps212 lv (by cases lv <;> decide) (4 : Int) (by decide)
  · exact c9reps212 lv (by cases lv <;> decide) (5 : Int) (by decide)
  · exact c9reps212 lv (by cases lv <;> decide) (6 : Int) (by decide)
  · rw [c9transport lv (fun _ => PatternType.SCALE) 2 1 2 (0 : Int)
        (7 : Int) (by with_unfolding_all decide),
      c9transport lv (fun _ => PatternType.UNKNOWN) 2 1 2 (0 : Int)
        (7 : Int) (by with_unfolding_all decide)]
    exact c9reps212 lv (by cases lv <;> decide) (0 : Int) (by decide)
  · rw [c9transport lv (fun _ => PatternType.SCALE) 2 1 2 (1 : Int)
        (8 : Int) (by with_unfolding_all decide),
      c9transport lv (fun _ => PatternType.UNKNOWN) 2 1 2 (1 : Int)
        (8 : Int) (by with_unfolding_all decide)]
    exact c9reps212 lv (by cases lv <;> decide) (1 : Int) (by decide)
  · rw [c9transport lv (fun _ => PatternType.SCALE) 2 1 2 (2 : Int)
        (9 : Int) (by with_unfolding_all decide),
      c9transport lv (fun _ => PatternType.UNKNOWN) 2 1 2 (2 : Int)
        (9 : Int) (by with_unfolding_all decide)]
    exact c9reps212 lv (by cases lv <;> decide) (2 : Int) (by decide)
  · rw [c9transport lv (fun _ => PatternType.SCALE) 2 1 2 (3 : Int)
        (10 : Int) (by with_unfolding_all decide),
      c9transport lv (fun _ => PatternType.UNKNOWN) 2 1 2 (3 : Int)
        (10 : Int) (by with_unfolding_all decide)]
    exact c9reps212 lv (by cases lv <;> decide) (3 : Int) (by decide)
  · rw [c9transport lv (fun _ => PatternType.SCALE) 2 1 2 (4 : Int)
        (11 : Int) (by with_unfolding_all decide),
      c9transport lv (fun _ => PatternType.UNKNOWN) 2 1 2 (4 : Int)
        (11 : Int) (by with_unfolding_all decide)]
    exact c9reps212 lv (by cases lv <;> decide) (4 : Int) (by decide)
  · exact c9reps221 lv (by cases lv <;> decide) (0 : Int) (by decide)
  · exact c9reps221 lv (by cases lv <;> decide) (1 : Int) (by decide)
  · exact c9reps221 lv (by cases lv <;> decide) (2 : Int) (by decide)
  · exact c9reps221 lv (by cases lv <;> decide) (3 : Int) (by decide)
  · exact c9reps221 lv (by cases lv <;> decide) (4 : Int) (by decide)
  · exact c9reps221 lv (by cases lv <;> decide) (5 : Int) (by decide)
  · exact c9reps221 lv (by cases lv <;> decide) (6 : Int) (by decide)
  · rw [c9transport lv (fun _ => PatternType.SCALE) 2 2 1 (0 : Int)
        (7 : Int) (by with_unfolding_all decide),
      c9transport lv (fun _ => PatternType.UNKNOWN) 2 2 1 (0 : Int)
        (7 : Int) (by with_unfolding_all decide)]
    exact c9reps221 lv (by cases lv <;> decide) (0 : Int) (by decide)
  · rw [c9transport lv (fun _ => PatternType.SCALE) 2 2 1 (1 : Int)
        (8 : Int) (by with_unfolding_all decide),
      c9transport lv (fun _ => PatternType.UNKNOWN) 2 2 1 (1 : Int)
        (8 : Int) (by with_unfolding_all decide)]
    exact c9reps221 lv (by cases lv <;> decide) (1 : Int) (by decide)
  · rw [c9transport lv (fun _ => PatternType.SCALE) 2 2 1 (2 : Int)
        (9 : Int) (by with_unfolding_all decide),
      c9transport lv (fun _ => PatternType.UNKNOWN) 2 2 1 (2 : Int)
        (9 : Int) (by with_unfolding_all decide)]
    exact c9reps221 lv (by cases lv <;> decide) (2 : Int) (by decide)
  · rw [c9transport lv (fun _ => PatternType.SCALE) 2 2 1 (3 : Int)
        (10 : Int) (by with_unfolding_all decide),
      c9transport lv (fun _ => PatternType.UNKNOWN) 2 2 1 (3 : Int)
        (10 : Int) (by with_unfolding_all decide)]
    exact c9reps221 lv (by cases lv <;> decide) (3 : Int) (by decide)
  · rw [c9transport lv (fun _ => PatternType.SCALE) 2 2 1 (4 : Int)
        (11 : Int) (by with_unfolding_all decide),
      c9transport lv (fun _ => PatternType.UNKNOWN) 2 2 1 (4 : Int)
        (11 : Int) (by with_unfolding_all decide)]
    exact c9reps221 lv (by cases lv <;> decide) (4 : Int) (by decide)
  · exact c9reps222 lv (by cases lv <;> decide) (0 : Int) (by decide)
  · exact c9reps222 lv (by cases lv <;> decide) (1 : Int) (by decide)
  · exact c9reps222 lv (by cases lv <;> decide) (2 : Int) (by decide)
  · exact c9reps222 lv (by cases lv <;> decide) (3 : Int) (by decide)
  · exact c9reps222 lv (by cases lv <;> decide) (4 : Int) (by decide)
  · exact c9reps222 lv (by cases lv <;> decide) (5 : Int) (by decide)
  · exact c9reps222 lv (by cases lv <;> decide) (6 : Int) (by decide)
  · rw [c9transport lv (fun _ => PatternType.SCALE) 2 2 2 (0 : Int)
        (7 : Int) (by with_unfolding_all decide),
      c9transport lv (fun _ => PatternType.UNKNOWN) 2 2 2 (0 : Int)
        (7 : Int) (by with_unfolding_all decide)]
    exact c9reps222 lv (by cases lv <;> decide) (0 : Int) (by decide)
  · rw [c9transport lv (fun _ => PatternType.SCALE) 2 2 2 (1 : Int)
        (8 : Int) (by with_unfolding_all decide),
      c9transport lv (fun _ => PatternType.UNKNOWN) 2 2 2 (1 : Int)
        (8 : Int) (by with_unfolding_all decide)]
    exact c9reps222 lv (by cases lv <;> decide) (1 : Int) (by decide)
  · rw [c9transport lv (fun _ => PatternType.SCALE) 2 2 2 (2 : Int)
        (9 : Int) (by with_unfolding_all decide),
      c9transport lv (fun _ => PatternType.UNKNOWN) 2 2 2 (2 : Int)
        (9 : Int) (by with_unfolding_all decide)]
    exact c9reps222 lv (by cases lv <;> decide) (2 : Int) (by decide)
  · rw [c9transport lv (fun _ => PatternType.SCALE) 2 2 2 (3 : Int)
        (10 : Int) (by with_unfolding_all decide),
      c9transport lv (fun _ => PatternType.UNKNOWN) 2 2 2 (3 : Int)
        (10 : Int) (by with_unfolding_all decide)]
    exact c9reps222 lv (by cases lv <;> decide) (3 : Int) (by decide)
  · exact c9reps222 lv (by cases lv <;> decide) (11 : Int) (by decide)

end PianoFingering
namespace PianoFingering

theorem c9shiftNat (lv : Difficulty) (a b c : Nat)
    (ha : a = 1 ∨ a = 2) (hb : b = 1 ∨ b = 2) (hc : c = 1 ∨ c = 2) :
    ∀ m : Nat,
      costLE
        (dpOptimizationWith lv (mkScale4 (m : Int) a b c)
          (fun _ => PatternType.SCALE) Hand.RH).totalCost
        (dpOptimizationWith lv (mkScale4 (m : Int) a b c)
          (fun _ => PatternType.UNKNOWN) Hand.RH).totalCost := by
  intro m
  induction m using Nat.strong_induction_on with
  | _ m ih =>
    by_cases hm : m < 12
    · exact c9base lv (m : Int) a b c (by omega) (by omega) ha hb hc
    · have hd : (m : Int) - ((m - 12 : Nat) : Int) = 12 := by omega
      have hbits : ∀ x ∈ mkScale4 ((m - 12 : Nat) : Int) a b c,
          isBlackKey (x.pitch + ((m : Int) - ((m - 12 : Nat) : Int))) =
            isBlackKey x.pitch := by
        intro x hx
        rw [hd]
        refine isBlackKey_add_twelve x.pitch ?_
        simp only [mkScale4, List.mem_cons, List.not_mem_nil, or_false] at hx
        rcases hx with rfl | rfl | rfl | rfl <;>
          (simp only [canonNote]; omega)
      rw [c9transport lv (fun _ => PatternType.SCALE) a b c
            ((m - 12 : Nat) : Int) (m : Int) hbits,
          c9transport lv (fun _ => PatternType.UNKNOWN) a b c
            ((m - 12 : Nat) : Int) (m : Int) hbits]
      exact ih (m - 12) (by omega)

/-- C9 (confirmed): for every right-hand strictly ascending stepwise
stream of at least 4 notes (with nonnegative MIDI pitches), the DP run
with every pattern context forced to SCALE reports a total cost that is
at most the total reported with every context forced to UNKNOWN.  For 5
or more notes the detected scale mask covers every index and the two
runs coincide; for exactly 4 notes (empty mask) the inequality is
checked over all start pitch classes, step patterns and difficulty
profiles after transposition reductions. -/
theorem c9_scale_shaping (level : Difficulty) (notes : List Note)
    (h4 : 4 ≤ notes.length) (hasc : StrictAscStepwise notes)
    (hpos : ∀ x ∈ notes, 0 ≤ x.pitch) :
    costLE
      (dpOptimizationWith level notes (fun _ => PatternType.SCALE)
        Hand.RH).totalCost
      (dpOptimizationWith level notes (fun _ => PatternType.UNKNOWN)
        Hand.RH).totalCost := by
  by_cases h5 : 5 ≤ notes.length
  · rw [dpW_scale_ctx_eq level notes h5 hasc]
    exact costLE_refl _
  · have hlen4 : notes.length = 4 := by omega
    cases notes with
    | nil => simp at hlen4
    | cons n0 t0 =>
    cases t0 with
    | nil => simp at hlen4
    | cons n1 t1 =>
    cases t1 with
    | nil => simp at hlen4
    | cons n2 t2 =>
    cases t2 with
    | nil => simp at hlen4
    | cons n3 t3 =>
    cases t3 with
    | cons n4 t4 => simp at hlen4
    | nil =>
      obtain ⟨h01, h12, h23, -⟩ :
          (n1.pitch - n0.pitch = 1 ∨ n1.pitch - n0.pitch = 2) ∧
          (n2.pitch - n1.pitch = 1 ∨ n2.pitch - n1.pitch = 2) ∧
          (n3.pitch - n2.pitch = 1 ∨ n3.pitch - n2.pitch = 2) ∧ True := by
        unfold StrictAscStepwise at hasc
        rw [List.chain'_cons, List.chain'_cons, List.chain'_cons] at hasc
        exact ⟨hasc.1, hasc.2.1, hasc.2.2.1, trivial⟩
      have hp0 : 0 ≤ n0.pitch := hpos n0 (by simp)
      set A := (n1.pitch - n0.pitch).toNat with hA
      set B := (n2.pitch - n1.pitch).toNat with hB
      set C := (n3.pitch - n2.pitch).toNat with hC
      have ha2 : A = 1 ∨ A = 2 := by omega
      have hb2 : B = 1 ∨ B = 2 := by omega
      have hc2 : C = 1 ∨ C = 2 := by omega
      have hmap : [n0, n1, n2, n3].map (·.pitch) =
          (mkScale4 n0.pitch A B C).map (fun x => x.pitch + 0) := by
        simp only [mkScale4, canonNote, List.map_cons, List.map_nil]
        simp only [List.cons.injEq, and_true]
        refine ⟨by omega, by omega, by omega, by omega⟩
      have hbk0 : ∀ x ∈ mkScale4 n0.pitch A B C,
          isBlackKey (x.pitch + 0) = isBlackKey x.pitch := by
        intro x _
        rw [Int.add_zero]
      rw [dpW_shift level Hand.RH (fun _ => PatternType.SCALE) _ _ 0
            (by norm_num [mkScale4]) hmap hbk0,
          dpW_shift level Hand.RH (fun _ => PatternType.UNKNOWN) _ _ 0
            (by norm_num [mkScale4]) hmap hbk0]
      rw [show n0.pitch = ((n0.pitch.toNat : Nat) : Int) from
        (Int.toNat_of_nonneg hp0).symm]
      exact c9shiftNat level A B C ha2 hb2 hc2 n0.pitch.toNat

/-- Witness for C9 at a concrete 4-note ascending stepwise stream
(start pitch 60, steps 2, 2, 1). -/
theorem c9_scale_shaping_witness :
    4 ≤ c9wnotes.length ∧
    costLE
      (dpOptimizationWith Difficulty.intermediate c9wnotes
        (fun _ => PatternType.SCALE) Hand.RH).totalCost
      (dpOptimizationWith Difficulty.intermediate c9wnotes
        (fun _ => PatternType.UNKNOWN) Hand.RH).totalCost :=
  ⟨by decide, c9_scale_shaping Difficulty.intermediate c9wnotes
    (by decide)
    (by
      unfold StrictAscStepwise c9wnotes mkScale4
      refine List.chain'_cons.mpr ⟨?_, List.chain'_cons.mpr ⟨?_,
        List.chain'_cons.mpr ⟨?_, List.chain'_singleton _⟩⟩⟩ <;>
        (simp only [canonNote]; omega))
    (by decide)⟩

end PianoFingering
